import Mathlib

/-!
# Bookstore backend: credential handling and order storage

A shallow embedding of `internal/store` (`app.go`, `repo.go`, `errors.go`,
`server.go`) together with the properties proved about it.

Go values are modelled as follows.

* `string` is `String`; `[]byte` is `List Byte` with `Byte = Fin 256`.
* `int` is `Int` (no claim below depends on overflow).
* An `error` is a `GoError` tree; `nil` is `none`.
* A run-time panic is the result `none` of a function returning `Option`.
* Library functions the package calls (`argon2.IDKey`, `mail.ParseAddress`,
  the SQL driver) are parameters collected in `Env`; `encoding/base64`,
  `strings.Split` and `subtle.ConstantTimeCompare` are modelled concretely.
-/

namespace Bookstore

/-! ## Bytes and library functions on them -/

/-- A Go `byte`. -/
abbrev Byte := Fin 256

/-- The conversion `[]byte(s)`: the UTF-8 bytes of a string. -/
def bytesOf (s : String) : List Byte :=
  s.data.flatMap (fun c => (String.utf8EncodeChar c).map (fun b => Fin.ofNat b.toNat))

/-- The alphabet of `base64.StdEncoding` (RFC 4648, section 4). -/
def encodeStd : List Char :=
  "ABCDEFGHIJKLMNOPQRSTUVWXYZabcdefghijklmnopqrstuvwxyz0123456789+/".data

/-- The padding character of `base64.StdEncoding`. -/
def padChar : Char := '='

/-- The table lookup `enc.encode[i]` of the encoder, for a six-bit value. -/
def encodeChar (i : Nat) : Char := encodeStd.getD i 'A'

/-- The table lookup `enc.decodeMap[c]` of the decoder: the six-bit value of an
alphabet character, `none` where the table holds `0xff`. Every byte of a
character outside ASCII is outside the alphabet, so such a character is
rejected here as its bytes are in Go. -/
def decodeMap (c : Char) : Option Nat :=
  let i := encodeStd.indexOf c
  if i < 64 then some i else none

/-- The encoder of `base64.StdEncoding` on a byte sequence: three bytes give the
24-bit value `b0<<16 | b1<<8 | b2`, written as four six-bit digits; a remainder
of one or two bytes is padded with `=`. -/
def encodeChars : List Byte → List Char
  | b0 :: b1 :: b2 :: rest =>
    let val := b0.val * 65536 + b1.val * 256 + b2.val
    encodeChar (val / 262144 % 64) :: encodeChar (val / 4096 % 64) ::
      encodeChar (val / 64 % 64) :: encodeChar (val % 64) :: encodeChars rest
  | [b0, b1] =>
    let val := b0.val * 65536 + b1.val * 256
    [encodeChar (val / 262144 % 64), encodeChar (val / 4096 % 64),
      encodeChar (val / 64 % 64), padChar]
  | [b0] =>
    let val := b0.val * 65536
    [encodeChar (val / 262144 % 64), encodeChar (val / 4096 % 64), padChar, padChar]
  | [] => []

/-- The call `base64.StdEncoding.EncodeToString`. -/
def EncodeToString (src : List Byte) : String := String.mk (encodeChars src)

/-- The bytes of a full quantum of four six-bit digits. -/
def quantum3 (s0 s1 s2 s3 : Nat) : List Byte :=
  let val := s0 * 262144 + s1 * 4096 + s2 * 64 + s3
  [Fin.ofNat (val / 65536), Fin.ofNat (val / 256), Fin.ofNat val]

/-- The decoder of `base64.StdEncoding` (not strict) on input without line
breaks: quanta of four alphabet characters, the last one possibly ending in one
or two `=`; anything else is a `CorruptInputError`, here `none`. -/
def decodeChars : List Char → Option (List Byte)
  | [] => some []
  | c0 :: c1 :: c2 :: c3 :: rest =>
    match decodeMap c0, decodeMap c1 with
    | some s0, some s1 =>
      match decodeMap c2, decodeMap c3 with
      | some s2, some s3 =>
        match decodeChars rest with
        | some tail => some (quantum3 s0 s1 s2 s3 ++ tail)
        | none => none
      | some s2, none =>
        if c3 = padChar ∧ rest = [] then some ((quantum3 s0 s1 s2 0).take 2) else none
      | none, _ =>
        if c2 = padChar ∧ c3 = padChar ∧ rest = [] then some ((quantum3 s0 s1 0 0).take 1)
        else none
    | _, _ => none
  | _ => none

/-- A character that is neither a dot nor a line break: what the encoder writes. -/
def plainChar (c : Char) : Prop := c ≠ '.' ∧ c ≠ '\r' ∧ c ≠ '\n'

/-- The call `base64.StdEncoding.DecodeString`: carriage returns and line feeds
are skipped wherever they stand, the rest is decoded by `decodeChars`. -/
def DecodeString (s : String) : Option (List Byte) :=
  decodeChars (s.data.filter (fun c => c ≠ '\r' ∧ c ≠ '\n'))

/-- The pieces of a character sequence between the occurrences of a separator
character. -/
def splitChars (sep : Char) : List Char → List (List Char)
  | [] => [[]]
  | c :: cs =>
    if c = sep then [] :: splitChars sep cs
    else
      match splitChars sep cs with
      | [] => [[c]]
      | p :: ps => (c :: p) :: ps

/-- The call `strings.Split(s, sep)` for a separator of one character: `n`
occurrences of the separator give `n + 1` substrings, the empty string gives
one empty substring. -/
def Split (s : String) (sep : Char) : List String :=
  (splitChars sep s.data).map String.mk

/-- The loop of `subtle.ConstantTimeCompare`: `v |= x[i] ^ y[i]` over two
slices of the same length. -/
def xorFold : Nat → List Byte → List Byte → Nat
  | v, x :: xs, y :: ys => xorFold (v ||| (x.val ^^^ y.val)) xs ys
  | v, _, _ => v

/-- The call `subtle.ConstantTimeCompare(x, y)`: 1 when the slices are equal, 0
when they differ or have different lengths. -/
def ConstantTimeCompare (x y : List Byte) : Int :=
  if x.length ≠ y.length then 0
  else if xorFold 0 x y = 0 then 1 else 0

/-- The type of `argon2.IDKey(password, salt, time, memory, threads, keyLen)`,
a deterministic function of its arguments. -/
abbrev KDF := List Byte → List Byte → Nat → Nat → Nat → Nat → List Byte

/-! ## Password hasher (`app.go`) -/

/-- The function `hashPassword`. The argument `salt` is the content of the
16-byte buffer after `rand.Read` has filled it. -/
def hashPassword (IDKey : KDF) (salt : List Byte) (password : String) : String :=
  let hash := IDKey (bytesOf password) salt 1 (64 * 1024) 1 32
  EncodeToString hash ++ "." ++ EncodeToString salt

/-- The function `verifyPassword`. The result `none` stands for a panic of the
index expressions `parts[0]` and `parts[1]`. -/
def verifyPassword (IDKey : KDF) (password hash : String) : Option Bool :=
  let parts := Split hash '.'
  if parts.length ≠ 2 then some false
  else
    match parts.get? 0 with
    | none => none
    | some part0 =>
      match DecodeString part0 with
      | none => some false
      | some decodedHash =>
        match parts.get? 1 with
        | none => none
        | some part1 =>
          match DecodeString part1 with
          | none => some false
          | some decodedSalt =>
            let comparisonHash := IDKey (bytesOf password) decodedSalt 1 (64 * 1024) 1 32
            some (ConstantTimeCompare decodedHash comparisonHash == 1)

/-! ## Error values (`errors.go`) -/

/-- The five package-level error variables of `errors.go`. Each is a distinct
value made by `fmt.Errorf` without a wrapping verb. -/
inductive Sentinel
  | ErrConflict
  | ErrNotFound
  | ErrInvalid
  | ErrUnauthorized
  | ErrInternal
  deriving DecidableEq, Repr

open Sentinel

/-- The text each error variable of `errors.go` was made with. -/
def Sentinel.text : Sentinel → String
  | ErrConflict => "conflict"
  | ErrNotFound => "not found"
  | ErrInvalid => "invalid"
  | ErrUnauthorized => "unauthorized"
  | ErrInternal => "internal error"

/-- A Go `error` value as this package sees it.

* `sentinel` is one of the variables of `errors.go`;
* `foreign` is an error made by a library (`net/mail`, `database/sql`, the
  driver) and carries its message; such a value is never one of the variables
  of `errors.go` and wraps none of them, as those packages do not know them;
* `wrapError` is the result of `fmt.Errorf` with one `%w` verb, `wrapErrors`
  with two; `msg` is the formatted text. -/
inductive GoError
  | sentinel (s : Sentinel)
  | foreign (msg : String)
  | wrapError (msg : String) (err : GoError)
  | wrapErrors (msg : String) (err1 err2 : GoError)
  deriving DecidableEq, Repr

/-- The method `Error()`. -/
def GoError.Error : GoError → String
  | .sentinel s => s.text
  | .foreign msg => msg
  | .wrapError msg _ => msg
  | .wrapErrors msg _ _ => msg

/-- The call `errors.Is(err, target)` for a target among the variables of
`errors.go`: the error is the target itself, or one of the errors it wraps is,
searched depth first. -/
def Is : GoError → Sentinel → Bool
  | .sentinel s, target => s == target
  | .foreign _, _ => false
  | .wrapError _ err, target => Is err target
  | .wrapErrors _ err1 err2, target => Is err1 target || Is err2 target

/-! ## Data model (`app.go`) -/

/-- A `time.Time` instant, in nanoseconds since the zero time. -/
abbrev Time := Nat

/-- The constant `time.Second`, in nanoseconds. -/
def Second : Nat := 1000000000

/-- The constant `time.Hour`, in nanoseconds. -/
def Hour : Nat := 3600 * Second

/-- The method `t.Add(d)` for a duration that is not negative. -/
def Time.Add (t : Time) (d : Nat) : Time := t + d

/-- The method `t.Truncate(d)`: `t` rounded down to a multiple of `d` since the
zero time. -/
def Time.Truncate (t : Time) (d : Nat) : Time := t - t % d

/-- The variable `jwt.TimePrecision`, which the package leaves at its default. -/
def TimePrecision : Nat := Second

/-- The function `jwt.NewNumericDate`: the instant truncated to the precision. -/
def NewNumericDate (t : Time) : Time := t.Truncate TimePrecision

/-- The struct `jwt.RegisteredClaims`; a `nil` date is `none`. -/
structure RegisteredClaims where
  Issuer : String
  Subject : String
  Audience : List String
  ExpiresAt : Option Time
  NotBefore : Option Time
  IssuedAt : Option Time
  ID : String
  deriving DecidableEq, Repr

/-- The zero value `jwt.RegisteredClaims{}`. -/
def RegisteredClaims.zero : RegisteredClaims :=
  { Issuer := "", Subject := "", Audience := [], ExpiresAt := none, NotBefore := none,
    IssuedAt := none, ID := "" }

/-- The struct `User`. -/
structure User where
  Email : String
  Password : String
  deriving DecidableEq, Repr

/-- The struct `Login`, a row of the table `logins`. -/
structure Login where
  Email : String
  Hash : String
  deriving DecidableEq, Repr

/-- The zero value `Login{}`. -/
def Login.zero : Login := { Email := "", Hash := "" }

/-- The constant `OrderStatusPending`. -/
def OrderStatusPending : String := "pending"

/-- The struct `Order`, a row of the table `orders`. -/
structure Order where
  ID : Int
  User : String
  Date : Time
  Status : String
  deriving DecidableEq, Repr

/-- The zero value `Order{}`. -/
def Order.zero : Order := { ID := 0, User := "", Date := 0, Status := "" }

/-- The struct `OrderItem`, a row of the table `order_items`. -/
structure OrderItem where
  ID : Int
  User : String
  OrderID : Int
  BookID : Int
  Quantity : Int
  deriving DecidableEq, Repr

/-- The struct `OrderDetail`: an embedded `Order` and its items. -/
structure OrderDetail extends Order where
  Items : List OrderItem
  deriving DecidableEq, Repr

/-- The struct `OrderItemRequest`. -/
structure OrderItemRequest where
  BookID : Int
  Quantity : Int
  deriving DecidableEq, Repr

/-- The struct `OrderRequest`. -/
structure OrderRequest where
  User : String
  Items : List OrderItemRequest
  deriving DecidableEq, Repr

/-! ## The storage collaborator

The package talks to PostgreSQL through `database/sql`. The database is
modelled as a state: the committed rows of the three tables, the two id
sequences, and the trace of the storage calls made so far. Whether the driver
fails a call for a reason of its own (a lost connection, a rejected statement,
a violated constraint of a table that is not modelled) is decided by the
environment: `Env.fault n` is the driver error of the storage call made when
`n` calls are in the trace, or `none` when the driver lets it through. -/

/-- The storage calls of `repo.go`, as recorded in the trace. -/
inductive Call
  | execInsertLogin
  | queryLogin
  | begin
  | queryInsertOrder
  | prepareInsertItem
  | execInsertItem
  | commit
  | closeStmt
  | rollback
  deriving DecidableEq, Repr

/-- The state of the database. -/
structure DB where
  logins : List Login
  orders : List Order
  orderItems : List OrderItem
  orderSeq : Int
  itemSeq : Int
  calls : List Call
  deriving DecidableEq, Repr

/-- The database after one more storage call has been recorded. -/
def DB.call (db : DB) (c : Call) : DB := { db with calls := db.calls ++ [c] }

/-- What the package takes from outside: the address parser of `net/mail`
(`none` for a well-formed address, the message of the parse error otherwise),
the key derivation function of `argon2`, and the failures of the driver. -/
structure Env where
  ParseAddress : String → Option String
  IDKey : KDF
  fault : Nat → Option String

/-- The driver error, if any, of the storage call about to be made. -/
def Env.faultAt (env : Env) (db : DB) : Option GoError :=
  (env.fault db.calls.length).map GoError.foreign

/-! ## Repository (`repo.go`) -/

/-- Modelled from the spec: the schema of the table `logins`
(`migrations/storedb`) is not among the sources; the spec says that the
credential store enforces the uniqueness of `email`, so an insert whose email
is already present is rejected with the error of the driver.

The function `insertLogin`: one `db.Exec` of the insert statement. -/
def insertLogin (env : Env) (db : DB) (login : Login) : Option GoError × DB :=
  match env.faultAt db with
  | some err => (some err, db.call .execInsertLogin)
  | none =>
    if db.logins.any (fun l => l.Email = login.Email) then
      (some (.foreign "pq: duplicate key value violates unique constraint"),
        db.call .execInsertLogin)
    else (none, { db.call .execInsertLogin with logins := db.logins ++ [login] })

/-- The function `getLoginByEmail`: one `db.QueryRow` and its `Scan`, which
fails with `sql.ErrNoRows` when no row has the email. -/
def getLoginByEmail (env : Env) (db : DB) (email : String) : (Login × Option GoError) × DB :=
  match env.faultAt db with
  | some err => ((Login.zero, some err), db.call .queryLogin)
  | none =>
    match db.logins.find? (fun l => l.Email = email) with
    | none => ((Login.zero, some (.foreign "sql: no rows in result set")), db.call .queryLogin)
    | some login => ((login, none), db.call .queryLogin)

/-- The loop of `insertOrders` over the items of the request: one `stmt.Exec`
per item, stopping at the first that fails. `rows` are the item rows the
transaction has written so far; they are not in the committed table. -/
def execItems (env : Env) (user : String) (orderID : Int) :
    List OrderItemRequest → DB → List OrderItem → Option GoError × DB × List OrderItem
  | [], db, rows => (none, db, rows)
  | item :: rest, db, rows =>
    match env.faultAt db with
    | some err => (some err, db.call .execInsertItem, rows)
    | none =>
      execItems env user orderID rest
        { db.call .execInsertItem with itemSeq := db.itemSeq + 1 }
        (rows ++ [{ ID := db.itemSeq + 1, User := user, OrderID := orderID,
                    BookID := item.BookID, Quantity := item.Quantity }])

/-- The function `insertOrders`. `now` is the value of `time.Now()` as the
database stores and returns it. The deferred `stmt.Close()` and `tx.Rollback()`
run on every path that registered them; after a commit that succeeded the
rollback finds the transaction done and changes nothing, on every other path it
discards what the transaction wrote, so nothing reaches the committed tables.
A value taken from an id sequence is not given back. -/
def insertOrders (env : Env) (now : Time) (db : DB) (orderRequest : OrderRequest) :
    (Order × Option GoError) × DB :=
  match env.faultAt db with
  | some err => ((Order.zero, some err), db.call .begin)
  | none =>
    let db1 := db.call .begin
    match env.faultAt db1 with
    | some err => ((Order.zero, some err), (db1.call .queryInsertOrder).call .rollback)
    | none =>
      let order : Order :=
        { ID := db1.orderSeq + 1, User := orderRequest.User, Date := now,
          Status := OrderStatusPending }
      let db2 := { db1.call .queryInsertOrder with orderSeq := db1.orderSeq + 1 }
      match env.faultAt db2 with
      | some err => ((Order.zero, some err), (db2.call .prepareInsertItem).call .rollback)
      | none =>
        let db3 := db2.call .prepareInsertItem
        match execItems env orderRequest.User order.ID orderRequest.Items db3 [] with
        | (some err, db4, _) =>
          ((Order.zero, some err), (db4.call .closeStmt).call .rollback)
        | (none, db4, rows) =>
          match env.faultAt db4 with
          | some err =>
            ((order, some err), ((db4.call .commit).call .closeStmt).call .rollback)
          | none =>
            ((order, none),
              (({ db4.call .commit with
                  orders := db4.orders ++ [order],
                  orderItems := db4.orderItems ++ rows }).call .closeStmt).call .rollback)

/-- One row of the join of `getOrdersByUser`, in the column order of its
`SELECT`. -/
structure Row where
  orderID : Int
  user : String
  date : Time
  status : String
  itemID : Int
  bookID : Int
  quantity : Int
  deriving DecidableEq, Repr

/-- The `OrderDetail` that `rows.Scan` fills from a row: the four order columns,
no items. -/
def Row.order (r : Row) : OrderDetail :=
  { ID := r.orderID, User := r.user, Date := r.date, Status := r.status, Items := [] }

/-- The `OrderItem` that `rows.Scan` fills from a row: the three item columns;
`User` and `OrderID` are not scanned and keep their zero values. -/
def Row.item (r : Row) : OrderItem :=
  { ID := r.itemID, User := "", OrderID := 0, BookID := r.bookID, Quantity := r.quantity }

/-- The statement `orders[len(orders)-1].Items = append(orders[len(orders)-1].Items, item)`;
`none` is the panic of the index expression on an empty slice. -/
def appendItem (orders : List OrderDetail) (item : OrderItem) : Option (List OrderDetail) :=
  match orders.getLast? with
  | none => none
  | some last => some (orders.dropLast ++ [{ last with Items := last.Items ++ [item] }])

/-- The loop `for rows.Next()` of `getOrdersByUser` over the rows still to come,
each of which `rows.Scan` either fills or fails on; `lastOrder` and `orders`
are the two loop variables. -/
def scanRows : List (Except GoError Row) → OrderDetail → List OrderDetail →
    Option (List OrderDetail × Option GoError)
  | [], _, orders => some (orders, none)
  | .error err :: _, _, _ => some ([], some err)
  | .ok r :: rest, lastOrder, orders =>
    if lastOrder.ID ≠ r.order.ID then
      match appendItem (orders ++ [r.order]) r.item with
      | none => none
      | some orders1 => scanRows rest r.order orders1
    else
      match appendItem orders r.item with
      | none => none
      | some orders1 => scanRows rest lastOrder orders1

/-- The function `getOrdersByUser` on the outcome of its `db.Query`: the error
of the query, or the stream of joined rows. The result `none` is a panic. -/
def getOrdersByUser (query : Except GoError (List (Except GoError Row))) :
    Option (List OrderDetail × Option GoError) :=
  match query with
  | .error err => some ([], some err)
  | .ok rows =>
    scanRows rows { ID := 0, User := "", Date := 0, Status := "", Items := [] } []

/-! ## Application (`app.go`) -/

/-- The method `App.RegisterUser`. `salt` is what `rand.Read` would put into the
salt buffer of `hashPassword`. -/
def RegisterUser (env : Env) (salt : List Byte) (db : DB) (user : User) : Option GoError × DB :=
  match env.ParseAddress user.Email with
  | some msg =>
    (some (.wrapError ("invalid email: " ++ msg ++ " " ++ user.Email) (.foreign msg)), db)
  | none =>
    if user.Password = "" then
      (some (.wrapError ("password is required: " ++ (GoError.sentinel ErrInvalid).Error)
        (.sentinel ErrInvalid)), db)
    else
      let hash := hashPassword env.IDKey salt user.Password
      match insertLogin env db { Email := user.Email, Hash := hash } with
      | (some err, db1) =>
        (some (.wrapErrors
          ("failed to insert login: " ++ err.Error ++ ": " ++ (GoError.sentinel ErrConflict).Error)
          err (.sentinel ErrConflict)), db1)
      | (none, db1) => (none, db1)

/-- The error both failing branches of `LoginUser` build:
`fmt.Errorf("login failed: %w", ErrUnauthorized)`. -/
def loginFailed : GoError :=
  .wrapError ("login failed: " ++ (GoError.sentinel ErrUnauthorized).Error)
    (.sentinel ErrUnauthorized)

/-- The method `App.LoginUser`. The composite literal of the claims reads the
clock three times, in the order of its fields: `t1` for `ExpiresAt`, `t2` for
`IssuedAt`, `t3` for `NotBefore`. The result `none` is a panic. -/
def LoginUser (env : Env) (t1 t2 t3 : Time) (db : DB) (user : User) :
    Option ((RegisteredClaims × Option GoError) × DB) :=
  match getLoginByEmail env db user.Email with
  | ((_, some _), db1) => some ((RegisteredClaims.zero, some loginFailed), db1)
  | ((login, none), db1) =>
    match verifyPassword env.IDKey user.Password login.Hash with
    | none => none
    | some false => some ((RegisteredClaims.zero, some loginFailed), db1)
    | some true =>
      some (({ Issuer := "gotu", Subject := user.Email, Audience := [],
               ExpiresAt := some (NewNumericDate (t1.Add (24 * Hour))),
               IssuedAt := some (NewNumericDate t2),
               NotBefore := some (NewNumericDate t3), ID := "" }, none), db1)

/-- The method `App.GetOrdersByUser`, which hands its argument to
`getOrdersByUser`. -/
def GetOrdersByUser (query : Except GoError (List (Except GoError Row))) :
    Option (List OrderDetail × Option GoError) :=
  getOrdersByUser query

/-- The method `App.CreateOrder`. -/
def CreateOrder (env : Env) (now : Time) (db : DB) (orderRequest : OrderRequest) :
    (Order × Option GoError) × DB :=
  if orderRequest.Items.length = 0 then
    ((Order.zero, some (.wrapError
      ("order must have at least one item: " ++ (GoError.sentinel ErrInvalid).Error)
      (.sentinel ErrInvalid))), db)
  else
    match insertOrders env now db orderRequest with
    | ((_, some err), db1) =>
      ((Order.zero, some (.wrapErrors
        ("failed to insert order: " ++ err.Error ++ ": " ++ (GoError.sentinel ErrConflict).Error)
        err (.sentinel ErrConflict))), db1)
    | ((order, none), db1) => ((order, none), db1)

/-! ## HTTP handler (`server.go`) -/

/-- The status code with which the handler `postUsers` answers. `body` is the
outcome of `c.BodyParser`: the decoded user, or `none` when decoding failed. -/
def postUsers (env : Env) (salt : List Byte) (db : DB) (body : Option User) : Nat × DB :=
  match body with
  | none => (400, db)
  | some user =>
    match RegisterUser env salt db user with
    | (some err, db1) =>
      if Is err ErrConflict then (409, db1)
      else if Is err ErrInternal then (500, db1)
      else (400, db1)
    | (none, db1) => (201, db1)

/-! ## Specification of the rows of an order -/

/-- The order header the claim describes for a request: the next value of the
order id sequence, the user of the request, the stored date, status pending. -/
def headerOf (db : DB) (now : Time) (orderRequest : OrderRequest) : Order :=
  { ID := db.orderSeq + 1, User := orderRequest.User, Date := now, Status := OrderStatusPending }

/-- The item rows the claim describes for a request: one row per item of the
request, in the order of the request, each with the next value of the item id
sequence, the user of the request, the id of the order, and the book and
quantity of its item. -/
def itemRows (user : String) (orderID : Int) (seq : Int) (items : List OrderItemRequest) :
    List OrderItem :=
  items.enum.map (fun p =>
    { ID := seq + 1 + p.1, User := user, OrderID := orderID,
      BookID := p.2.BookID, Quantity := p.2.Quantity })

/-- The grouping of a stream of joined rows the spec describes: one
`OrderDetail` per maximal run of consecutive rows with the same order id, in
stream order, with the order columns of the first row of the run and, as
items, the items of the rows of the run in row order. -/
def groupRuns : List Row → List OrderDetail
  | [] => []
  | r :: rest =>
    { r.order with
      Items := r.item :: (rest.takeWhile (fun x => x.orderID = r.orderID)).map Row.item } ::
      groupRuns (rest.dropWhile (fun x => x.orderID = r.orderID))
termination_by rows => rows.length
decreasing_by
  simp_wf
  exact Nat.lt_succ_of_le (List.dropWhile_sublist _).length_le

/-- All rows of one order id are contiguous in the stream: whenever the rows at
positions `i < j < k` are such that rows `i` and `k` have the same order id,
row `j` has that order id too. -/
def Contiguous (rows : List Row) : Prop :=
  ∀ k, k < rows.length → ∀ j, j < k → ∀ i, i < j →
    (rows.get? i).map Row.orderID = (rows.get? k).map Row.orderID →
    (rows.get? j).map Row.orderID = (rows.get? i).map Row.orderID

instance (rows : List Row) : Decidable (Contiguous rows) := by
  unfold Contiguous
  infer_instance

/-- The contiguity of the rows of one order id in terms of sublists: a row that
stands between two rows of one order id has that order id. -/
def Between (rows : List Row) : Prop :=
  ∀ a m b : Row, List.Sublist [a, m, b] rows → a.orderID = b.orderID → m.orderID = a.orderID

/-- The distinct values of a list in the order of their first appearance. -/
def firstSeen : List Int → List Int
  | [] => []
  | x :: xs => x :: (firstSeen xs).filter (fun y => y ≠ x)

/-! ## Sample values -/

/-- A stand-in for `argon2.IDKey`: the first `keyLen` bytes of the salt followed
by the password. -/
def sampleKDF : KDF := fun password salt _ _ _ keyLen => (salt ++ password).take keyLen

/-- A stand-in for `mail.ParseAddress` that accepts the strings holding an `@`. -/
def sampleParseAddress (email : String) : Option String :=
  if '@' ∈ email.data then none else some "mail: missing @ or angle-addr"

/-- An environment in which the driver fails no call. -/
def sampleEnv : Env :=
  { ParseAddress := sampleParseAddress, IDKey := sampleKDF, fault := fun _ => none }

/-- An environment in which the driver fails every call: the connection is lost. -/
def downEnv : Env :=
  { ParseAddress := sampleParseAddress, IDKey := sampleKDF,
    fault := fun _ => some "driver: bad connection" }

/-- An environment in which the driver fails the fourth storage call and no
other: in `insertOrders` on a fresh trace that is the insert of the first item,
rejected for a book id that names no book. -/
def itemFaultEnv : Env :=
  { ParseAddress := sampleParseAddress, IDKey := sampleKDF,
    fault := fun n =>
      if n = 3 then some "pq: insert or update violates foreign key constraint" else none }

/-- The order request of the test suite: one item, book 1, quantity 1. -/
def sampleRequest : OrderRequest :=
  { User := "budi@domain.example", Items := [{ BookID := 1, Quantity := 1 }] }

/-- A database whose table `logins` holds a row for the string `invalid`, which
is not a well-formed address. -/
def takenDB : DB :=
  { logins := [{ Email := "invalid", Hash := "" }], orders := [], orderItems := [],
    orderSeq := 0, itemSeq := 0, calls := [] }

/-- A joined row whose order id is 0. -/
def zeroRow : Row :=
  { orderID := 0, user := "budi@domain.example", date := 1000, status := "pending",
    itemID := 1, bookID := 1, quantity := 1 }

/-- The joined row of the order the test suite creates: order 1 of
`budi@domain.example` with one item, book 1, quantity 1. -/
def sampleRow : Row :=
  { orderID := 1, user := "budi@domain.example", date := 1000, status := "pending",
    itemID := 1, bookID := 1, quantity := 1 }

/-- A stream of three joined rows: two items of order 1, then one item of
order 2. -/
def sampleRows : List Row :=
  [sampleRow, { sampleRow with itemID := 2, bookID := 7, quantity := 3 },
    { sampleRow with orderID := 2, date := 900, itemID := 3, bookID := 4 }]

/-- A database with no rows and no calls made. -/
def emptyDB : DB :=
  { logins := [], orders := [], orderItems := [], orderSeq := 0, itemSeq := 0, calls := [] }

/-- A 16-byte salt. -/
def saltA : List Byte := [1, 2, 3, 4, 5, 6, 7, 8, 9, 10, 11, 12, 13, 14, 15, 16]

/-- Another 16-byte salt. -/
def saltB : List Byte := [16, 15, 14, 13, 12, 11, 10, 9, 8, 7, 6, 5, 4, 3, 2, 1]

/-- A database in which `budi@domain.example` is registered with the password
`password1`, hashed with the salt `saltA`. -/
def registeredDB : DB :=
  { logins := [{ Email := "budi@domain.example",
                 Hash := hashPassword sampleKDF saltA "password1" }],
    orders := [], orderItems := [], orderSeq := 0, itemSeq := 0, calls := [] }

/-! ## Theorems -/

theorem decodeMap_encodeChar :
    ∀ i, i < 64 → decodeMap (encodeChar i) = some i ∧ encodeChar i ≠ '.' ∧
      encodeChar i ≠ '=' ∧ encodeChar i ≠ '\r' ∧ encodeChar i ≠ '\n' := by
  decide

theorem quantum3_full (b0 b1 b2 : Byte) :
    quantum3 ((b0.val * 65536 + b1.val * 256 + b2.val) / 262144 % 64)
      ((b0.val * 65536 + b1.val * 256 + b2.val) / 4096 % 64)
      ((b0.val * 65536 + b1.val * 256 + b2.val) / 64 % 64)
      ((b0.val * 65536 + b1.val * 256 + b2.val) % 64) = [b0, b1, b2] := by
  have h0 := b0.isLt
  have h1 := b1.isLt
  have h2 := b2.isLt
  simp only [quantum3, List.cons.injEq, and_true]
  refine ⟨?_, ?_, ?_⟩ <;> apply Fin.ext <;> simp only [Fin.ofNat, Fin.val_mk] <;> omega

theorem quantum3_two (b0 b1 : Byte) :
    (quantum3 ((b0.val * 65536 + b1.val * 256) / 262144 % 64)
      ((b0.val * 65536 + b1.val * 256) / 4096 % 64)
      ((b0.val * 65536 + b1.val * 256) / 64 % 64) 0).take 2 = [b0, b1] := by
  have h0 := b0.isLt
  have h1 := b1.isLt
  simp only [quantum3, List.take, List.cons.injEq, and_true]
  refine ⟨?_, ?_⟩ <;> apply Fin.ext <;> simp only [Fin.ofNat, Fin.val_mk] <;> omega

theorem quantum3_one (b0 : Byte) :
    (quantum3 ((b0.val * 65536) / 262144 % 64) ((b0.val * 65536) / 4096 % 64) 0 0).take 1
      = [b0] := by
  have h0 := b0.isLt
  simp only [quantum3, List.take, List.cons.injEq, and_true]
  apply Fin.ext
  simp only [Fin.ofNat, Fin.val_mk]
  omega

theorem decodeMap_padChar : decodeMap padChar = none := by decide

theorem decodeChars_encodeChars : ∀ bs : List Byte, decodeChars (encodeChars bs) = some bs
  | [] => rfl
  | [b0] => by
    have e0 := (decodeMap_encodeChar (b0.val * 65536 / 262144 % 64) (Nat.mod_lt _ (by decide))).1
    have e1 := (decodeMap_encodeChar (b0.val * 65536 / 4096 % 64) (Nat.mod_lt _ (by decide))).1
    simp only [encodeChars, decodeChars, e0, e1, decodeMap_padChar, and_self, if_true,
      quantum3_one]
  | [b0, b1] => by
    have e0 := (decodeMap_encodeChar ((b0.val * 65536 + b1.val * 256) / 262144 % 64)
      (Nat.mod_lt _ (by decide))).1
    have e1 := (decodeMap_encodeChar ((b0.val * 65536 + b1.val * 256) / 4096 % 64)
      (Nat.mod_lt _ (by decide))).1
    have e2 := (decodeMap_encodeChar ((b0.val * 65536 + b1.val * 256) / 64 % 64)
      (Nat.mod_lt _ (by decide))).1
    simp only [encodeChars, decodeChars, e0, e1, e2, decodeMap_padChar, and_self, if_true,
      quantum3_two]
  | b0 :: b1 :: b2 :: rest => by
    have e0 := (decodeMap_encodeChar ((b0.val * 65536 + b1.val * 256 + b2.val) / 262144 % 64)
      (Nat.mod_lt _ (by decide))).1
    have e1 := (decodeMap_encodeChar ((b0.val * 65536 + b1.val * 256 + b2.val) / 4096 % 64)
      (Nat.mod_lt _ (by decide))).1
    have e2 := (decodeMap_encodeChar ((b0.val * 65536 + b1.val * 256 + b2.val) / 64 % 64)
      (Nat.mod_lt _ (by decide))).1
    have e3 := (decodeMap_encodeChar ((b0.val * 65536 + b1.val * 256 + b2.val) % 64)
      (Nat.mod_lt _ (by decide))).1
    have ih := decodeChars_encodeChars rest
    simp only [encodeChars, decodeChars, e0, e1, e2, e3, ih, quantum3_full]
    rfl

theorem plainChar_encodeChar (i : Nat) (h : i < 64) : plainChar (encodeChar i) :=
  have e := decodeMap_encodeChar i h
  ⟨e.2.1, e.2.2.2.1, e.2.2.2.2⟩

theorem plainChar_padChar : plainChar padChar := by
  unfold plainChar padChar
  decide

theorem plainChar_encodeChars : ∀ (bs : List Byte) (c : Char), c ∈ encodeChars bs → plainChar c
  | [], c, h => by simp [encodeChars] at h
  | [b0], c, h => by
    simp only [encodeChars, List.mem_cons, List.mem_singleton, List.not_mem_nil, or_false] at h
    rcases h with h | h | h | h <;> subst h
    · exact plainChar_encodeChar _ (Nat.mod_lt _ (by decide))
    · exact plainChar_encodeChar _ (Nat.mod_lt _ (by decide))
    · exact plainChar_padChar
    · exact plainChar_padChar
  | [b0, b1], c, h => by
    simp only [encodeChars, List.mem_cons, List.mem_singleton, List.not_mem_nil, or_false] at h
    rcases h with h | h | h | h <;> subst h
    · exact plainChar_encodeChar _ (Nat.mod_lt _ (by decide))
    · exact plainChar_encodeChar _ (Nat.mod_lt _ (by decide))
    · exact plainChar_encodeChar _ (Nat.mod_lt _ (by decide))
    · exact plainChar_padChar
  | b0 :: b1 :: b2 :: rest, c, h => by
    simp only [encodeChars, List.mem_cons] at h
    rcases h with h | h | h | h | h
    · subst h; exact plainChar_encodeChar _ (Nat.mod_lt _ (by decide))
    · subst h; exact plainChar_encodeChar _ (Nat.mod_lt _ (by decide))
    · subst h; exact plainChar_encodeChar _ (Nat.mod_lt _ (by decide))
    · subst h; exact plainChar_encodeChar _ (Nat.mod_lt _ (by decide))
    · exact plainChar_encodeChars rest c h

theorem filter_plain (l : List Char) (h : ∀ c, c ∈ l → plainChar c) :
    l.filter (fun c => c ≠ '\r' ∧ c ≠ '\n') = l := by
  rw [List.filter_eq_self]
  intro c hc
  have hp := h c hc
  simp [hp.2.1, hp.2.2]

theorem DecodeString_EncodeToString (bs : List Byte) :
    DecodeString (EncodeToString bs) = some bs := by
  unfold DecodeString EncodeToString
  rw [filter_plain _ (plainChar_encodeChars bs)]
  exact decodeChars_encodeChars bs

theorem splitChars_of_not_mem (sep : Char) :
    ∀ l : List Char, sep ∉ l → splitChars sep l = [l]
  | [], _ => rfl
  | c :: cs, h => by
    have hc : c ≠ sep := fun e => h (by simp [e])
    have ih := splitChars_of_not_mem sep cs (fun m => h (List.mem_cons_of_mem _ m))
    simp [splitChars, hc, ih]

theorem splitChars_append (sep : Char) (b : List Char) :
    ∀ a : List Char, sep ∉ a → splitChars sep (a ++ sep :: b) = a :: splitChars sep b
  | [], _ => by simp [splitChars]
  | c :: cs, h => by
    have hc : c ≠ sep := fun e => h (by simp [e])
    have ih := splitChars_append sep b cs (fun m => h (List.mem_cons_of_mem _ m))
    simp [splitChars, hc, ih]

theorem dot_not_mem_encodeChars (bs : List Byte) : '.' ∉ encodeChars bs :=
  fun h => (plainChar_encodeChars bs _ h).1 rfl

theorem Split_record (x y : List Byte) :
    Split (EncodeToString x ++ "." ++ EncodeToString y) '.'
      = [EncodeToString x, EncodeToString y] := by
  have hd : (EncodeToString x ++ "." ++ EncodeToString y).data
      = encodeChars x ++ '.' :: encodeChars y := by
    simp [EncodeToString, String.data_append]
  unfold Split
  rw [hd, splitChars_append _ _ _ (dot_not_mem_encodeChars x),
    splitChars_of_not_mem _ _ (dot_not_mem_encodeChars y)]
  rfl

theorem xorFold_self : ∀ (v : Nat) (x : List Byte), xorFold v x x = v
  | _, [] => rfl
  | v, b :: bs => by
    simp [xorFold, xorFold_self _ bs]

theorem ConstantTimeCompare_self (x : List Byte) : ConstantTimeCompare x x = 1 := by
  simp [ConstantTimeCompare, xorFold_self]

theorem verifyPassword_record (IDKey : KDF) (P : String) (s : List Byte) :
    verifyPassword IDKey P (hashPassword IDKey s P) = some true := by
  simp [verifyPassword, hashPassword, Split_record, DecodeString_EncodeToString,
    ConstantTimeCompare_self]

theorem hashPassword_salt_injective (IDKey : KDF) (P : String) (s t : List Byte)
    (h : hashPassword IDKey s P = hashPassword IDKey t P) : s = t := by
  have hs := Split_record (IDKey (bytesOf P) s 1 (64 * 1024) 1 32) s
  have ht := Split_record (IDKey (bytesOf P) t 1 (64 * 1024) 1 32) t
  unfold hashPassword at h
  simp only at h
  rw [h, ht] at hs
  have e : EncodeToString t = EncodeToString s := by
    simpa using (List.cons.inj hs).2
  have d := DecodeString_EncodeToString t
  rw [e, DecodeString_EncodeToString] at d
  exact Option.some.inj d

/-- C1: for every password `P` and all 16-byte salts `s` and `t`, with
`argon2.IDKey` any deterministic function, the record `hashPassword` builds from
`P` and `s` is `base64(IDKey(P, s)) + "." + base64(s)`; it splits on the dot
into exactly these two components, both decode back to the digest and the salt,
the constant-time comparison of the digest with itself gives 1, and
`verifyPassword` returns true on it. The record built with the salt `t`
verifies as well, and the two records differ when the salts do. -/
theorem verifyPassword_hashPassword (IDKey : KDF) (P : String) (s t : List Byte)
    (_hs : s.length = 16) (_ht : t.length = 16) :
    hashPassword IDKey s P
        = EncodeToString (IDKey (bytesOf P) s 1 (64 * 1024) 1 32) ++ "." ++ EncodeToString s ∧
      Split (hashPassword IDKey s P) '.'
        = [EncodeToString (IDKey (bytesOf P) s 1 (64 * 1024) 1 32), EncodeToString s] ∧
      DecodeString (EncodeToString (IDKey (bytesOf P) s 1 (64 * 1024) 1 32))
        = some (IDKey (bytesOf P) s 1 (64 * 1024) 1 32) ∧
      DecodeString (EncodeToString s) = some s ∧
      ConstantTimeCompare (IDKey (bytesOf P) s 1 (64 * 1024) 1 32)
        (IDKey (bytesOf P) s 1 (64 * 1024) 1 32) = 1 ∧
      verifyPassword IDKey P (hashPassword IDKey s P) = some true ∧
      verifyPassword IDKey P (hashPassword IDKey t P) = some true ∧
      (s ≠ t → hashPassword IDKey s P ≠ hashPassword IDKey t P) :=
  ⟨rfl, Split_record _ _, DecodeString_EncodeToString _, DecodeString_EncodeToString _,
    ConstantTimeCompare_self _, verifyPassword_record IDKey P s, verifyPassword_record IDKey P t,
    fun hne h => hne (hashPassword_salt_injective IDKey P s t h)⟩

/-- The statement of C1 at the password `password` and the salts `saltA` and
`saltB`, with `sampleKDF` for the key derivation function. -/
theorem verifyPassword_hashPassword_witness :
    (saltA.length = 16 ∧ saltB.length = 16) ∧
      Split (hashPassword sampleKDF saltA "password") '.'
        = [EncodeToString (sampleKDF (bytesOf "password") saltA 1 (64 * 1024) 1 32),
            EncodeToString saltA] ∧
      verifyPassword sampleKDF "password" (hashPassword sampleKDF saltA "password") = some true ∧
      verifyPassword sampleKDF "password" (hashPassword sampleKDF saltB "password") = some true ∧
      hashPassword sampleKDF saltA "password" ≠ hashPassword sampleKDF saltB "password" :=
  have h := verifyPassword_hashPassword sampleKDF "password" saltA saltB rfl rfl
  ⟨⟨rfl, rfl⟩, h.2.1, h.2.2.2.2.2.1, h.2.2.2.2.2.2.1, h.2.2.2.2.2.2.2 (by decide)⟩

theorem splitChars_ne_nil (sep : Char) : ∀ l : List Char, splitChars sep l ≠ []
  | [] => by simp [splitChars]
  | c :: cs => by
    unfold splitChars
    split
    · simp
    · split <;> simp

theorem verifyPassword_of_parts (IDKey : KDF) (password hash a b : String)
    (h : Split hash '.' = [a, b]) :
    verifyPassword IDKey password hash =
      match DecodeString a with
      | none => some false
      | some decodedHash =>
        match DecodeString b with
        | none => some false
        | some decodedSalt =>
          some (ConstantTimeCompare decodedHash
            (IDKey (bytesOf password) decodedSalt 1 (64 * 1024) 1 32) == 1) := by
  unfold verifyPassword
  simp only [h]
  cases ha : DecodeString a <;> cases hb : DecodeString b <;> simp [ha, hb]

/-- C9: `verifyPassword` is total and fails only by returning false. For every
candidate password and every stored string it returns a boolean and does not
panic; it returns false whenever the stored string does not split on the dot
into exactly two components, and whenever it does and one of the two
components is rejected by the standard base64 decoder. -/
theorem verifyPassword_total (IDKey : KDF) (password stored : String) :
    (∃ b : Bool, verifyPassword IDKey password stored = some b) ∧
      ((Split stored '.').length ≠ 2 → verifyPassword IDKey password stored = some false) ∧
      (∀ a b : String, Split stored '.' = [a, b] →
        DecodeString a = none ∨ DecodeString b = none →
        verifyPassword IDKey password stored = some false) := by
  refine ⟨?_, ?_, ?_⟩
  · by_cases hlen : (Split stored '.').length = 2
    · obtain ⟨a, b, hab⟩ := List.length_eq_two.mp hlen
      rw [verifyPassword_of_parts IDKey password stored a b hab]
      cases ha : DecodeString a <;> cases hb : DecodeString b <;> simp
    · exact ⟨false, by simp [verifyPassword, hlen]⟩
  · intro hlen
    simp [verifyPassword, hlen]
  · intro a b hab hdec
    rw [verifyPassword_of_parts IDKey password stored a b hab]
    rcases hdec with h | h
    · simp [h]
    · cases ha : DecodeString a <;> simp [h]

/-- The statement of C9 at a stored string without a dot, which gives one
component. -/
theorem verifyPassword_total_witness :
    (Split "c2FsdA==" '.').length ≠ 2 ∧
      verifyPassword sampleKDF "password" "c2FsdA==" = some false :=
  ⟨by decide, (verifyPassword_total sampleKDF "password" "c2FsdA==").2.1 (by decide)⟩

theorem faultAt_none (env : Env) (db : DB) (h : env.fault db.calls.length = none) :
    env.faultAt db = none := by
  simp [Env.faultAt, h]

theorem faultAt_some (env : Env) (db : DB) (h : env.fault db.calls.length ≠ none) :
    ∃ err, env.faultAt db = some err := by
  cases hf : env.fault db.calls.length with
  | none => exact absurd hf h
  | some m => exact ⟨.foreign m, by simp [Env.faultAt, hf]⟩

theorem length_calls_call (db : DB) (c : Call) :
    (db.call c).calls.length = db.calls.length + 1 := by
  simp [DB.call]

theorem execItems_ok (env : Env) (user : String) (orderID : Int) (seq : Int) :
    ∀ (items : List OrderItemRequest) (db : DB) (rows : List OrderItem) (n : Nat),
      db.itemSeq = seq + n →
      (∀ j, j < items.length → env.fault (db.calls.length + j) = none) →
      ∃ db1, execItems env user orderID items db rows
          = (none, db1, rows ++ (items.enumFrom n).map (fun p =>
              { ID := seq + 1 + p.1, User := user, OrderID := orderID,
                BookID := p.2.BookID, Quantity := p.2.Quantity })) ∧
        db1.calls.length = db.calls.length + items.length ∧
        db1.orders = db.orders ∧ db1.orderItems = db.orderItems
  | [], db, rows, n, _, _ => ⟨db, by simp [execItems], by simp, rfl, rfl⟩
  | item :: rest, db, rows, n, hseq, hf => by
    have h0 : env.faultAt db = none := faultAt_none env db (by simpa using hf 0 (by simp))
    have hrest : ∀ j, j < rest.length →
        env.fault (({ db.call .execInsertItem with itemSeq := db.itemSeq + 1 } : DB).calls.length
          + j) = none := by
      intro j hj
      have := hf (j + 1) (by simpa using hj)
      simpa [DB.call, Nat.add_assoc, Nat.add_comm 1 j] using this
    obtain ⟨db1, he, hlen, ho, hi⟩ :=
      execItems_ok env user orderID seq rest
        { db.call .execInsertItem with itemSeq := db.itemSeq + 1 }
        (rows ++ [{ ID := db.itemSeq + 1, User := user, OrderID := orderID,
                    BookID := item.BookID, Quantity := item.Quantity }]) (n + 1)
        (by simp [hseq]; ring) hrest
    have hid : db.itemSeq + 1 = seq + 1 + (n : Int) := by rw [hseq]; ring
    have hstep : execItems env user orderID (item :: rest) db rows
        = execItems env user orderID rest
            { db.call .execInsertItem with itemSeq := db.itemSeq + 1 }
            (rows ++ [{ ID := db.itemSeq + 1, User := user, OrderID := orderID,
                        BookID := item.BookID, Quantity := item.Quantity }]) := by
      simp only [execItems, h0]
    refine ⟨db1, ?_, ?_, ?_, ?_⟩
    · rw [hstep, he]
      simp [hid]
    · simp [hlen, DB.call]
      omega
    · simpa [DB.call] using ho
    · simpa [DB.call] using hi

theorem execItems_fail (env : Env) (user : String) (orderID : Int) :
    ∀ (items : List OrderItemRequest) (db : DB) (rows : List OrderItem),
      (∃ j, j < items.length ∧ env.fault (db.calls.length + j) ≠ none) →
      ∃ err db1 rows1, execItems env user orderID items db rows = (some err, db1, rows1) ∧
        db1.orders = db.orders ∧ db1.orderItems = db.orderItems
  | [], _, _, ⟨j, hj, _⟩ => by simp at hj
  | item :: rest, db, rows, ⟨j, hj, hfault⟩ => by
    cases h0 : env.fault db.calls.length with
    | some m =>
      exact ⟨.foreign m, db.call .execInsertItem, rows, by simp [execItems, Env.faultAt, h0],
        rfl, rfl⟩
    | none =>
      have hj0 : j ≠ 0 := by
        intro e
        subst e
        exact hfault (by simpa using h0)
      obtain ⟨i, rfl⟩ := Nat.exists_eq_succ_of_ne_zero hj0
      obtain ⟨err, db1, rows1, he, ho, hi⟩ :=
        execItems_fail env user orderID rest
          { db.call .execInsertItem with itemSeq := db.itemSeq + 1 }
          (rows ++ [{ ID := db.itemSeq + 1, User := user, OrderID := orderID,
                      BookID := item.BookID, Quantity := item.Quantity }])
          ⟨i, by simpa using hj, by
            simpa [DB.call, Nat.add_assoc, Nat.add_comm 1 i] using hfault⟩
      exact ⟨err, db1, rows1, by simp [execItems, Env.faultAt, h0, he],
        by simpa [DB.call] using ho, by simpa [DB.call] using hi⟩

theorem execItems_ok_of_eq (env : Env) (user : String) (orderID : Int)
    (items : List OrderItemRequest) (db : DB)
    (hf : ∀ j, j < items.length → env.fault (db.calls.length + j) = none)
    (oerr : Option GoError) (db1 : DB) (rows1 : List OrderItem)
    (he : execItems env user orderID items db [] = (oerr, db1, rows1)) :
    oerr = none ∧ rows1 = itemRows user orderID db.itemSeq items ∧
      db1.calls.length = db.calls.length + items.length ∧
      db1.orders = db.orders ∧ db1.orderItems = db.orderItems := by
  obtain ⟨db2, he2, hlen, ho, hi⟩ :=
    execItems_ok env user orderID db.itemSeq items db [] 0 (by simp) hf
  rw [he2] at he
  simp only [Prod.mk.injEq] at he
  obtain ⟨h1, h2, h3⟩ := he
  subst h1 h2 h3
  exact ⟨rfl, by simp [itemRows, List.enum], hlen, ho, hi⟩

theorem execItems_fail_of_eq (env : Env) (user : String) (orderID : Int)
    (items : List OrderItemRequest) (db : DB)
    (hf : ∃ j, j < items.length ∧ env.fault (db.calls.length + j) ≠ none)
    (oerr : Option GoError) (db1 : DB) (rows1 : List OrderItem)
    (he : execItems env user orderID items db [] = (oerr, db1, rows1)) :
    oerr ≠ none := by
  obtain ⟨err, db2, rows2, he2, _, _⟩ := execItems_fail env user orderID items db [] hf
  rw [he2] at he
  simp only [Prod.mk.injEq] at he
  rw [← he.1]
  simp

theorem insertOrders_success (env : Env) (now : Time) (db : DB) (orderRequest : OrderRequest)
    (hf : ∀ j, j ≤ orderRequest.Items.length + 3 → env.fault (db.calls.length + j) = none) :
    (insertOrders env now db orderRequest).1 = (headerOf db now orderRequest, none) ∧
      (insertOrders env now db orderRequest).2.orders
        = db.orders ++ [headerOf db now orderRequest] ∧
      (insertOrders env now db orderRequest).2.orderItems
        = db.orderItems ++ itemRows orderRequest.User (headerOf db now orderRequest).ID
            db.itemSeq orderRequest.Items := by
  have f0 : env.fault db.calls.length = none := by simpa using hf 0 (by omega)
  have f1 : env.fault (db.calls.length + 1) = none := hf 1 (by omega)
  have f2 : env.fault (db.calls.length + 1 + 1) = none := hf 2 (by omega)
  unfold insertOrders
  simp only [Env.faultAt, DB.call, List.length_append, List.length_singleton, f0, f1, f2,
    Option.map_none']
  have hf3 : ∀ d : DB, d.calls.length = db.calls.length + 3 →
      ∀ j, j < orderRequest.Items.length → env.fault (d.calls.length + j) = none := by
    intro d hd j hj
    rw [hd, Nat.add_assoc, Nat.add_comm 3 j]
    exact hf (j + 3) (by omega)
  split
  · rename_i err db4 rows heq
    have h := (execItems_ok_of_eq env _ _ _ _ (hf3 _ (by simp)) _ _ _ heq).1
    simp at h
  · rename_i db4 rows heq
    obtain ⟨_, hrows, hlen, ho, hi⟩ :=
      execItems_ok_of_eq env _ _ _ _ (hf3 _ (by simp)) _ _ _ heq
    have f3 : env.fault db4.calls.length = none := by
      rw [hlen]
      simp only [List.length_append, List.length_singleton]
      have := hf (orderRequest.Items.length + 3) (by omega)
      rw [← this]
      congr 1
      omega
    simp only [f3, Option.map_none']
    simp [ho, hi, hrows, headerOf]

theorem execItems_tables (env : Env) (user : String) (orderID : Int) :
    ∀ (items : List OrderItemRequest) (db : DB) (rows : List OrderItem),
      (execItems env user orderID items db rows).2.1.orders = db.orders ∧
        (execItems env user orderID items db rows).2.1.orderItems = db.orderItems
  | [], _, _ => by simp [execItems]
  | item :: rest, db, rows => by
    cases h0 : env.faultAt db with
    | some err => simp [execItems, h0, DB.call]
    | none =>
      have ih := execItems_tables env user orderID rest
        { db.call .execInsertItem with itemSeq := db.itemSeq + 1 }
        (rows ++ [{ ID := db.itemSeq + 1, User := user, OrderID := orderID,
                    BookID := item.BookID, Quantity := item.Quantity }])
      simpa [execItems, h0, DB.call] using ih

theorem execItems_tables_of_eq (env : Env) (user : String) (orderID : Int)
    (items : List OrderItemRequest) (db : DB) (rows : List OrderItem)
    (oerr : Option GoError) (db1 : DB) (rows1 : List OrderItem)
    (he : execItems env user orderID items db rows = (oerr, db1, rows1)) :
    db1.orders = db.orders ∧ db1.orderItems = db.orderItems := by
  have ht := execItems_tables env user orderID items db rows
  rw [he] at ht
  exact ht

theorem insertOrders_failure (env : Env) (now : Time) (db : DB) (orderRequest : OrderRequest)
    (hf : ∃ j, j ≤ orderRequest.Items.length + 3 ∧ env.fault (db.calls.length + j) ≠ none) :
    (insertOrders env now db orderRequest).1.2 ≠ none ∧
      (insertOrders env now db orderRequest).2.orders = db.orders ∧
      (insertOrders env now db orderRequest).2.orderItems = db.orderItems := by
  obtain ⟨j, hj, hfault⟩ := hf
  unfold insertOrders
  simp only [Env.faultAt, DB.call, List.length_append, List.length_singleton]
  cases f0 : env.fault db.calls.length with
  | some m => simp
  | none =>
    cases f1 : env.fault (db.calls.length + 1) with
    | some m => simp
    | none =>
      cases f2 : env.fault (db.calls.length + 1 + 1) with
      | some m => simp
      | none =>
        simp only [Option.map_none']
        split
        · rename_i err db4 rows heq
          have ht := execItems_tables_of_eq env _ _ _ _ _ _ _ _ heq
          simpa using ht
        · rename_i db4 rows heq
          have ht := execItems_tables_of_eq env _ _ _ _ _ _ _ _ heq
          simp only at ht
          by_cases hex : ∃ i, i < orderRequest.Items.length ∧
              env.fault (db.calls.length + 3 + i) ≠ none
          · have h := execItems_fail_of_eq env _ _ _ _
              (by simpa [Nat.add_assoc] using hex) _ _ _ heq
            exact absurd rfl h
          · have hall : ∀ i, i < orderRequest.Items.length →
                env.fault (db.calls.length + 3 + i) = none := by
              intro i hi
              by_contra hne
              exact hex ⟨i, hi, hne⟩
            have hlen := (execItems_ok_of_eq env _ _ _ _
              (by simpa [Nat.add_assoc] using hall) _ _ _ heq).2.2.1
            simp only [List.length_append, List.length_singleton] at hlen
            have hj3 : j = orderRequest.Items.length + 3 := by
              by_contra hne
              rcases Nat.lt_or_ge j 3 with h3 | h3
              · interval_cases j
                · exact hfault (by simpa using f0)
                · exact hfault f1
                · exact hfault f2
              · have := hall (j - 3) (by omega)
                apply hfault
                rw [← this]
                congr 1
                omega
            have f3 : env.fault db4.calls.length ≠ none := by
              rw [hlen]
              intro h
              apply hfault
              rw [← h, hj3]
              congr 1
              omega
            cases f4 : env.fault db4.calls.length with
            | none => exact absurd f4 f3
            | some m => simpa using ht

theorem itemRows_length (user : String) (orderID seq : Int) (items : List OrderItemRequest) :
    (itemRows user orderID seq items).length = items.length := by
  simp [itemRows]

theorem itemRows_owner (user : String) (orderID seq : Int) (items : List OrderItemRequest) :
    ∀ r, r ∈ itemRows user orderID seq items → r.User = user ∧ r.OrderID = orderID := by
  intro r hr
  simp only [itemRows, List.mem_map] at hr
  obtain ⟨p, _, rfl⟩ := hr
  exact ⟨rfl, rfl⟩

theorem itemRows_content (user : String) (orderID seq : Int) (items : List OrderItemRequest) :
    (itemRows user orderID seq items).map (fun r => (r.BookID, r.Quantity))
      = items.map (fun i => (i.BookID, i.Quantity)) := by
  have h := List.enumFrom_map_snd 0 items
  simp only [itemRows, List.enum, List.map_map]
  conv_rhs => rw [← h]
  simp only [List.map_map]
  rfl

/-- C2: `insertOrders` is all-or-nothing on the committed tables. The storage
calls of one run are numbered from the length of the trace: 0 is `Begin`, 1 the
insert of the header, 2 `Prepare`, 3 to `n + 2` the inserts of the `n` items,
`n + 3` the commit. If the driver fails none of them, the header (next order
id, user of the request, status pending) is returned without error, the
committed `orders` gain exactly that header and the committed `order_items`
gain exactly one row per item of the request, in request order, each with the
id of the new order and the user of the request. If the driver fails any of
them, an error is returned and the committed `orders` and `order_items` are
what they were. -/
theorem insertOrders_atomic (env : Env) (now : Time) (db : DB) (orderRequest : OrderRequest) :
    ((∀ j, j ≤ orderRequest.Items.length + 3 → env.fault (db.calls.length + j) = none) →
        (insertOrders env now db orderRequest).1 = (headerOf db now orderRequest, none) ∧
        (headerOf db now orderRequest).User = orderRequest.User ∧
        (headerOf db now orderRequest).Status = OrderStatusPending ∧
        (insertOrders env now db orderRequest).2.orders
          = db.orders ++ [headerOf db now orderRequest] ∧
        (insertOrders env now db orderRequest).2.orderItems
          = db.orderItems ++ itemRows orderRequest.User (headerOf db now orderRequest).ID
              db.itemSeq orderRequest.Items ∧
        (itemRows orderRequest.User (headerOf db now orderRequest).ID
          db.itemSeq orderRequest.Items).length = orderRequest.Items.length ∧
        (itemRows orderRequest.User (headerOf db now orderRequest).ID
          db.itemSeq orderRequest.Items).map (fun r => (r.BookID, r.Quantity))
          = orderRequest.Items.map (fun i => (i.BookID, i.Quantity)) ∧
        (∀ r, r ∈ itemRows orderRequest.User (headerOf db now orderRequest).ID
            db.itemSeq orderRequest.Items →
          r.User = orderRequest.User ∧ r.OrderID = (headerOf db now orderRequest).ID)) ∧
      ((∃ j, j ≤ orderRequest.Items.length + 3 ∧ env.fault (db.calls.length + j) ≠ none) →
        (insertOrders env now db orderRequest).1.2 ≠ none ∧
        (insertOrders env now db orderRequest).2.orders = db.orders ∧
        (insertOrders env now db orderRequest).2.orderItems = db.orderItems) := by
  refine ⟨fun hf => ?_, fun hf => insertOrders_failure env now db orderRequest hf⟩
  obtain ⟨h1, h2, h3⟩ := insertOrders_success env now db orderRequest hf
  exact ⟨h1, rfl, rfl, h2, h3, itemRows_length _ _ _ _, itemRows_content _ _ _ _,
    itemRows_owner _ _ _ _⟩

/-- The statement of C2 at the request of the test suite on the empty
database: with a driver that fails no call the order and its item are
committed, with a driver that rejects the insert of the item no row is. -/
theorem insertOrders_atomic_witness :
    ((insertOrders sampleEnv 1000 emptyDB sampleRequest).1
        = (headerOf emptyDB 1000 sampleRequest, none) ∧
      (insertOrders sampleEnv 1000 emptyDB sampleRequest).2.orders
        = [headerOf emptyDB 1000 sampleRequest] ∧
      (insertOrders sampleEnv 1000 emptyDB sampleRequest).2.orderItems
        = itemRows "budi@domain.example" 1 0 sampleRequest.Items) ∧
      ((∃ j, j ≤ sampleRequest.Items.length + 3 ∧
          itemFaultEnv.fault (emptyDB.calls.length + j) ≠ none) ∧
        (insertOrders itemFaultEnv 1000 emptyDB sampleRequest).1.2 ≠ none ∧
        (insertOrders itemFaultEnv 1000 emptyDB sampleRequest).2.orders = [] ∧
        (insertOrders itemFaultEnv 1000 emptyDB sampleRequest).2.orderItems = []) :=
  have ok := (insertOrders_atomic sampleEnv 1000 emptyDB sampleRequest).1 (fun _ _ => rfl)
  have hex : ∃ j, j ≤ sampleRequest.Items.length + 3 ∧
      itemFaultEnv.fault (emptyDB.calls.length + j) ≠ none := ⟨3, by decide, by decide⟩
  ⟨⟨ok.1, ok.2.2.2.1, ok.2.2.2.2.1⟩, hex,
    (insertOrders_atomic itemFaultEnv 1000 emptyDB sampleRequest).2 hex⟩

/-- C3, failing input: on the stream of the single joined row `zeroRow`, whose
order id is 0, the loop of `getOrdersByUser` opens no order for the first row,
because the id equals that of the zero-valued `lastOrder`, and the index
expression `orders[len(orders)-1]` panics on the empty slice; the claim has the
first row always open an order, so it asks for one `OrderDetail` holding the
item of that row. -/
theorem getOrdersByUser_zero_id_panics :
    (OrderDetail.mk Order.zero []).ID = zeroRow.orderID ∧
      getOrdersByUser (.ok [.ok zeroRow]) = none ∧
      getOrdersByUser (.ok [.ok { zeroRow with orderID := 1 }])
        = some ([{ ({ zeroRow with orderID := 1 } : Row).order with
                    Items := [zeroRow.item] }], none) := by
  decide

theorem RegisterUser_malformed (env : Env) (salt : List Byte) (db : DB) (user : User)
    (msg : String) (h : env.ParseAddress user.Email = some msg) :
    RegisterUser env salt db user
        = (some (.wrapError ("invalid email: " ++ msg ++ " " ++ user.Email) (.foreign msg)), db) ∧
      ∀ target, Is (.wrapError ("invalid email: " ++ msg ++ " " ++ user.Email) (.foreign msg))
        target = false := by
  simp [RegisterUser, h, Is]

theorem RegisterUser_no_password (env : Env) (salt : List Byte) (db : DB) (user : User)
    (h : env.ParseAddress user.Email = none) (hp : user.Password = "") :
    RegisterUser env salt db user
        = (some (.wrapError "password is required: invalid" (.sentinel ErrInvalid)), db) ∧
      Is (.wrapError "password is required: invalid" (.sentinel ErrInvalid)) ErrInvalid = true ∧
      Is (.wrapError "password is required: invalid" (.sentinel ErrInvalid)) ErrConflict
        = false := by
  refine ⟨?_, by decide, by decide⟩
  simp only [RegisterUser, h, hp, if_true]
  rfl

/-- C4, failing input: for the user with email `invalid` and password
`password`, on a store that already holds a row for that email, `RegisterUser`
returns before any storage call (the database and its trace are unchanged) an
error that is not of kind Conflict, and `postUsers` answers 400; but the error
wraps only the parse error of `net/mail`, so `errors.Is(err, ErrInvalid)` is
false, where the claim says it holds. -/
theorem RegisterUser_malformed_email_not_ErrInvalid :
    RegisterUser sampleEnv saltA takenDB { Email := "invalid", Password := "password" }
        = (some (.wrapError "invalid email: mail: missing @ or angle-addr invalid"
            (.foreign "mail: missing @ or angle-addr")), takenDB) ∧
      Is (.wrapError "invalid email: mail: missing @ or angle-addr invalid"
            (.foreign "mail: missing @ or angle-addr")) ErrInvalid = false ∧
      Is (.wrapError "invalid email: mail: missing @ or angle-addr invalid"
            (.foreign "mail: missing @ or angle-addr")) ErrConflict = false ∧
      postUsers sampleEnv saltA takenDB (some { Email := "invalid", Password := "password" })
        = (400, takenDB) := by
  have hp : sampleEnv.ParseAddress "invalid" = some "mail: missing @ or angle-addr" := by
    decide
  have h := (RegisterUser_malformed sampleEnv saltA takenDB
    { Email := "invalid", Password := "password" } _ hp).1
  have hm : "invalid email: " ++ "mail: missing @ or angle-addr" ++ " " ++ "invalid"
      = "invalid email: mail: missing @ or angle-addr invalid" := by decide
  simp only [hm] at h
  refine ⟨h, by decide, by decide, ?_⟩
  simp only [postUsers, h]
  decide

theorem getLoginByEmail_absent (env : Env) (db : DB) (email : String)
    (h : ∀ l, l ∈ db.logins → l.Email ≠ email) :
    ∃ err, getLoginByEmail env db email = ((Login.zero, some err), db.call .queryLogin) := by
  have hfind : db.logins.find? (fun l => l.Email = email) = none := by
    rw [List.find?_eq_none]
    intro l hl
    simpa using h l hl
  unfold getLoginByEmail
  cases hfa : env.faultAt db with
  | some err => exact ⟨err, rfl⟩
  | none => exact ⟨.foreign "sql: no rows in result set", by simp [hfind]⟩

theorem getLoginByEmail_cases (env : Env) (db : DB) (email : String) :
    (∃ err, getLoginByEmail env db email = ((Login.zero, some err), db.call .queryLogin)) ∨
      ∃ row, db.logins.find? (fun l => l.Email = email) = some row ∧
        getLoginByEmail env db email = ((row, none), db.call .queryLogin) := by
  unfold getLoginByEmail
  cases hfa : env.faultAt db with
  | some err => exact Or.inl ⟨err, rfl⟩
  | none =>
    cases hfind : db.logins.find? (fun l => l.Email = email) with
    | none => exact Or.inl ⟨_, rfl⟩
    | some row => exact Or.inr ⟨row, rfl, rfl⟩

/-- C5: for every store state and every login attempt, when no credential row
has the email, and when the query returns a row on whose hash `verifyPassword`
gives false, `LoginUser` returns the zero claims value and one and the same
error value `loginFailed`, which is of kind Unauthorized and of no other kind
and whose message is `login failed: unauthorized`; the store is left with the
same rows and one more query in its trace in both cases, so nothing returned
tells the two cases apart. -/
theorem LoginUser_unauthorized (env : Env) (t1 t2 t3 : Time) (db : DB) (user : User) :
    ((∀ l, l ∈ db.logins → l.Email ≠ user.Email) →
        LoginUser env t1 t2 t3 db user
          = some ((RegisteredClaims.zero, some loginFailed), db.call .queryLogin)) ∧
      (∀ row, db.logins.find? (fun l => l.Email = user.Email) = some row →
        verifyPassword env.IDKey user.Password row.Hash = some false →
        LoginUser env t1 t2 t3 db user
          = some ((RegisteredClaims.zero, some loginFailed), db.call .queryLogin)) ∧
      (∀ target, Is loginFailed target = true ↔ target = ErrUnauthorized) ∧
      loginFailed.Error = "login failed: unauthorized" := by
  refine ⟨?_, ?_, ?_, by decide⟩
  · intro h
    obtain ⟨err, he⟩ := getLoginByEmail_absent env db user.Email h
    simp [LoginUser, he]
  · intro row hrow hv
    rcases getLoginByEmail_cases env db user.Email with ⟨err, he⟩ | ⟨row2, hrow2, he⟩
    · simp [LoginUser, he]
    · rw [hrow] at hrow2
      cases Option.some.inj hrow2
      simp [LoginUser, he, hv]
  · intro target
    cases target <;> decide

/-- The statement of C5 at the two logins of the test suite: of
`budi@domain.example` on the empty store, where no row has the email, and of
the registered `budi@domain.example` with the password `password2`, which is
not the one the row was hashed from. -/
theorem LoginUser_unauthorized_witness :
    (∀ l, l ∈ emptyDB.logins → l.Email ≠ "budi@domain.example") ∧
      LoginUser sampleEnv 0 0 0 emptyDB { Email := "budi@domain.example", Password := "password1" }
        = some ((RegisteredClaims.zero, some loginFailed), emptyDB.call .queryLogin) ∧
      verifyPassword sampleEnv.IDKey "password2" (hashPassword sampleKDF saltA "password1")
        = some false ∧
      LoginUser sampleEnv 0 0 0 registeredDB
          { Email := "budi@domain.example", Password := "password2" }
        = some ((RegisteredClaims.zero, some loginFailed), registeredDB.call .queryLogin) :=
  have h := LoginUser_unauthorized sampleEnv 0 0 0 emptyDB
    { Email := "budi@domain.example", Password := "password1" }
  have h2 := LoginUser_unauthorized sampleEnv 0 0 0 registeredDB
    { Email := "budi@domain.example", Password := "password2" }
  have hv : verifyPassword sampleEnv.IDKey "password2"
      (hashPassword sampleKDF saltA "password1") = some false := by decide
  have hempty : ∀ l, l ∈ emptyDB.logins → l.Email ≠ "budi@domain.example" := by
    intro l hl
    simp [emptyDB] at hl
  ⟨hempty, h.1 hempty, hv,
    h2.2.1 { Email := "budi@domain.example", Hash := hashPassword sampleKDF saltA "password1" }
      (by decide) hv⟩

/-- C6: for every order request whose item list is empty, whatever its user,
and every store state, `CreateOrder` returns the zero `Order` and an error of
kind Invalid, and the database is returned as it was, trace included: no
transaction was begun, no storage call was made and no row was created. -/
theorem CreateOrder_empty_invalid (env : Env) (now : Time) (db : DB)
    (orderRequest : OrderRequest) (h : orderRequest.Items = []) :
    ∃ err, CreateOrder env now db orderRequest = ((Order.zero, some err), db) ∧
      Is err ErrInvalid = true ∧ Is err ErrConflict = false ∧ Is err ErrInternal = false ∧
      (CreateOrder env now db orderRequest).2.calls = db.calls ∧
      (CreateOrder env now db orderRequest).2.orders = db.orders ∧
      (CreateOrder env now db orderRequest).2.orderItems = db.orderItems := by
  refine ⟨.wrapError ("order must have at least one item: " ++ (GoError.sentinel ErrInvalid).Error)
    (.sentinel ErrInvalid), ?_, by decide, by decide, by decide, ?_, ?_, ?_⟩ <;>
  simp [CreateOrder, h]

/-- The statement of C6 at the request of the test suite, `items: []`, on a
store whose driver would fail every call. -/
theorem CreateOrder_empty_invalid_witness :
    ∃ err, CreateOrder downEnv 1000 emptyDB { User := "budi@domain.example", Items := [] }
        = ((Order.zero, some err), emptyDB) ∧
      Is err ErrInvalid = true ∧ Is err ErrConflict = false ∧ Is err ErrInternal = false ∧
      (CreateOrder downEnv 1000 emptyDB { User := "budi@domain.example", Items := [] }).2.calls
        = emptyDB.calls ∧
      (CreateOrder downEnv 1000 emptyDB { User := "budi@domain.example", Items := [] }).2.orders
        = emptyDB.orders ∧
      (CreateOrder downEnv 1000 emptyDB
        { User := "budi@domain.example", Items := [] }).2.orderItems = emptyDB.orderItems :=
  CreateOrder_empty_invalid downEnv 1000 emptyDB
    { User := "budi@domain.example", Items := [] } rfl

theorem faultAt_foreign (env : Env) (db : DB) (err : GoError) (h : env.faultAt db = some err) :
    ∃ msg, err = .foreign msg := by
  unfold Env.faultAt at h
  cases hf : env.fault db.calls.length with
  | none => simp [hf] at h
  | some m =>
    simp only [hf, Option.map_some', Option.some.injEq] at h
    exact ⟨m, h.symm⟩

theorem insertLogin_cases (env : Env) (db : DB) (login : Login) :
    (∃ msg, insertLogin env db login = (some (.foreign msg), db.call .execInsertLogin)) ∨
      ((∀ l, l ∈ db.logins → l.Email ≠ login.Email) ∧
        insertLogin env db login
          = (none, { db.call .execInsertLogin with logins := db.logins ++ [login] })) := by
  unfold insertLogin
  cases hfa : env.faultAt db with
  | some err =>
    obtain ⟨msg, rfl⟩ := faultAt_foreign env db err hfa
    exact Or.inl ⟨msg, rfl⟩
  | none =>
    by_cases hany : db.logins.any (fun l => l.Email = login.Email) = true
    · exact Or.inl ⟨"pq: duplicate key value violates unique constraint",
        by simp only [hany, if_true]⟩
    · refine Or.inr ⟨?_, by simp only [hany]; rfl⟩
      intro l hl hEq
      apply hany
      rw [List.any_eq_true]
      exact ⟨l, hl, by simpa using hEq⟩

theorem insertLogin_taken (env : Env) (db : DB) (login : Login)
    (h : ∃ l, l ∈ db.logins ∧ l.Email = login.Email) :
    ∃ msg, insertLogin env db login = (some (.foreign msg), db.call .execInsertLogin) := by
  rcases insertLogin_cases env db login with h1 | ⟨h2, _⟩
  · exact h1
  · obtain ⟨l, hl, hEq⟩ := h
    exact absurd hEq (h2 l hl)

theorem RegisterUser_insert (env : Env) (salt : List Byte) (db : DB) (user : User)
    (he : env.ParseAddress user.Email = none) (hp : user.Password ≠ "") :
    RegisterUser env salt db user =
      match insertLogin env db
          { Email := user.Email, Hash := hashPassword env.IDKey salt user.Password } with
      | (some err, db1) =>
        (some (.wrapErrors
          ("failed to insert login: " ++ err.Error ++ ": " ++ (GoError.sentinel ErrConflict).Error)
          err (.sentinel ErrConflict)), db1)
      | (none, db1) => (none, db1) := by
  simp only [RegisterUser, he, hp, if_false]

theorem find_append_new (logins : List Login) (login : Login)
    (h : ∀ l, l ∈ logins → l.Email ≠ login.Email) :
    (logins ++ [login]).find? (fun l => l.Email = login.Email) = some login := by
  rw [List.find?_append]
  have hnone : logins.find? (fun l => l.Email = login.Email) = none := by
    rw [List.find?_eq_none]
    intro l hl
    simpa using h l hl
  simp [hnone]

/-- C7: for every email `e` that the address parser accepts and all non-empty
passwords `p1` and `p2`, over the credential store that rejects an insert whose
email is present: if `RegisterUser(e, p1)` succeeds, then a following
`RegisterUser(e, p2)` returns an error that is of kind Conflict and not of kind
Invalid, `postUsers` answers 409 for it, the table `logins` is what the first
call left, and the row a lookup of `e` returns is still the one with the hash
the first call computed from `p1`. -/
theorem RegisterUser_twice_conflict (env : Env) (salt1 salt2 : List Byte) (db : DB)
    (e p1 p2 : String) (he : env.ParseAddress e = none) (hp1 : p1 ≠ "") (hp2 : p2 ≠ "")
    (hok : (RegisterUser env salt1 db { Email := e, Password := p1 }).1 = none) :
    ∃ err,
      (RegisterUser env salt2 (RegisterUser env salt1 db { Email := e, Password := p1 }).2
        { Email := e, Password := p2 }).1 = some err ∧
      Is err ErrConflict = true ∧ Is err ErrInvalid = false ∧
      (postUsers env salt2 (RegisterUser env salt1 db { Email := e, Password := p1 }).2
        (some { Email := e, Password := p2 })).1 = 409 ∧
      (RegisterUser env salt2 (RegisterUser env salt1 db { Email := e, Password := p1 }).2
        { Email := e, Password := p2 }).2.logins
        = (RegisterUser env salt1 db { Email := e, Password := p1 }).2.logins ∧
      (RegisterUser env salt1 db { Email := e, Password := p1 }).2.logins.find?
          (fun l => l.Email = e)
        = some { Email := e, Hash := hashPassword env.IDKey salt1 p1 } ∧
      (RegisterUser env salt2 (RegisterUser env salt1 db { Email := e, Password := p1 }).2
        { Email := e, Password := p2 }).2.logins.find? (fun l => l.Email = e)
        = some { Email := e, Hash := hashPassword env.IDKey salt1 p1 } := by
  have h1 := RegisterUser_insert env salt1 db { Email := e, Password := p1 } he hp1
  rcases insertLogin_cases env db { Email := e, Hash := hashPassword env.IDKey salt1 p1 }
    with ⟨err, hins⟩ | ⟨hfresh, hins⟩
  · rw [h1] at hok
    simp only [hins] at hok
    simp at hok
  · simp only [hins] at h1
    rw [h1]
    simp only
    have hfind := find_append_new db.logins
      { Email := e, Hash := hashPassword env.IDKey salt1 p1 } hfresh
    have h2 := fun d => RegisterUser_insert env salt2 d { Email := e, Password := p2 } he hp2
    obtain ⟨msg2, hins2⟩ := insertLogin_taken env
      { db.call .execInsertLogin with
        logins := db.logins ++ [{ Email := e, Hash := hashPassword env.IDKey salt1 p1 }] }
      { Email := e, Hash := hashPassword env.IDKey salt2 p2 }
      ⟨{ Email := e, Hash := hashPassword env.IDKey salt1 p1 }, by simp, rfl⟩
    refine ⟨.wrapErrors
      ("failed to insert login: " ++ (GoError.foreign msg2).Error ++ ": "
        ++ (GoError.sentinel ErrConflict).Error)
      (.foreign msg2) (.sentinel ErrConflict), ?_, ?_, ?_, ?_, ?_, ?_, ?_⟩
    · rw [h2]
      simp only [hins2]
    · simp [Is]
    · simp [Is]
    · simp only [postUsers, h2, hins2]
      simp [Is]
    · rw [h2]
      simp only [hins2]
      rfl
    · exact hfind
    · rw [h2]
      simp only [hins2]
      exact hfind

/-- The statement of C7 at the user of the test suite, registered twice on the
empty store with a driver that fails no call. -/
theorem RegisterUser_twice_conflict_witness :
    (sampleEnv.ParseAddress "email@domain.example" = none ∧
      (RegisterUser sampleEnv saltA emptyDB
        { Email := "email@domain.example", Password := "password" }).1 = none) ∧
    ∃ err,
      (RegisterUser sampleEnv saltB
        (RegisterUser sampleEnv saltA emptyDB
          { Email := "email@domain.example", Password := "password" }).2
        { Email := "email@domain.example", Password := "password" }).1 = some err ∧
      Is err ErrConflict = true ∧ Is err ErrInvalid = false ∧
      (postUsers sampleEnv saltB
        (RegisterUser sampleEnv saltA emptyDB
          { Email := "email@domain.example", Password := "password" }).2
        (some { Email := "email@domain.example", Password := "password" })).1 = 409 := by
  have he : sampleEnv.ParseAddress "email@domain.example" = none := by decide
  have hok : (RegisterUser sampleEnv saltA emptyDB
      { Email := "email@domain.example", Password := "password" }).1 = none := by decide
  obtain ⟨err, h1, h2, h3, h4, _⟩ :=
    RegisterUser_twice_conflict sampleEnv saltA saltB emptyDB "email@domain.example"
      "password" "password" he (by decide) (by decide) hok
  exact ⟨⟨he, hok⟩, err, h1, h2, h3, h4⟩

theorem LoginUser_registered (t1 t2 t3 : Time) :
    LoginUser sampleEnv t1 t2 t3 registeredDB
        { Email := "budi@domain.example", Password := "password1" }
      = some (({ Issuer := "gotu", Subject := "budi@domain.example", Audience := [],
                 ExpiresAt := some (NewNumericDate (t1.Add (24 * Hour))),
                 IssuedAt := some (NewNumericDate t2),
                 NotBefore := some (NewNumericDate t3), ID := "" }, none),
          registeredDB.call .queryLogin) := by
  have hq : getLoginByEmail sampleEnv registeredDB "budi@domain.example"
      = (({ Email := "budi@domain.example", Hash := hashPassword sampleKDF saltA "password1" },
          none), registeredDB.call .queryLogin) := by
    simp [getLoginByEmail, registeredDB, sampleEnv, Env.faultAt]
  have hv := verifyPassword_record sampleKDF "password1" saltA
  simp only [LoginUser, hq]
  have hk : sampleEnv.IDKey = sampleKDF := rfl
  simp only [hk, hv]

theorem truncate_add_day (t : Nat) :
    t + 24 * (3600 * 1000000000) - (t + 24 * (3600 * 1000000000)) % 1000000000
      = t - t % 1000000000 + 24 * (3600 * 1000000000) := by
  omega

theorem truncate_same_second (a b : Nat) (h : a / 1000000000 = b / 1000000000) :
    a - a % 1000000000 = b - b % 1000000000 := by
  omega

theorem truncate_mono (a b : Nat) (h : a ≤ b) :
    a - a % 1000000000 ≤ b - b % 1000000000 := by
  omega

theorem NewNumericDate_Add_day (t : Time) :
    NewNumericDate (t.Add (24 * Hour)) = (NewNumericDate t).Add (24 * Hour) :=
  truncate_add_day t

theorem NewNumericDate_same_second (a b : Time) (h : a / Second = b / Second) :
    NewNumericDate a = NewNumericDate b :=
  truncate_same_second a b h

theorem NewNumericDate_mono (a b : Time) (h : a ≤ b) : NewNumericDate a ≤ NewNumericDate b :=
  truncate_mono a b h

/-- C8, counterexample: the login of the registered user `budi@domain.example`
with the clock readings 0.999999999 s, 1.999999999 s and 2 s, which do not
decrease, succeeds with `ExpiresAt` 24 h after second 0, `IssuedAt` second 1 and
`NotBefore` second 2: `NotBefore` is not `IssuedAt`, and `ExpiresAt` is not
`IssuedAt` plus 24 hours. -/
theorem LoginUser_clock_counterexample :
    (999999999 : Nat) ≤ 1999999999 ∧ (1999999999 : Nat) ≤ 2000000000 ∧
      LoginUser sampleEnv 999999999 1999999999 2000000000 registeredDB
          { Email := "budi@domain.example", Password := "password1" }
        = some (({ Issuer := "gotu", Subject := "budi@domain.example", Audience := [],
                   ExpiresAt := some 86400000000000,
                   IssuedAt := some 1000000000,
                   NotBefore := some 2000000000, ID := "" }, none),
            registeredDB.call .queryLogin) ∧
      (2000000000 : Time) ≠ 1000000000 ∧
      (86400000000000 : Time) ≠ Time.Add 1000000000 (24 * Hour) := by
  refine ⟨by decide, by decide, ?_, by decide, by decide⟩
  rw [LoginUser_registered]
  rfl

/-- C8, amended: for every successful `LoginUser(email, password)`, the claims
have `Issuer` equal to `gotu` and `Subject` equal to the given email;
`ExpiresAt`, `IssuedAt` and `NotBefore` are the truncations to the second of
three readings of the clock `t1`, `t2`, `t3` taken in this order, `ExpiresAt`
24 hours after that of `t1`. When the three readings lie in the same second,
`NotBefore` equals `IssuedAt` and `ExpiresAt` is `IssuedAt` plus exactly 24
hours; for readings that only do not decrease, `ExpiresAt` is at most
`IssuedAt` plus 24 hours and `IssuedAt` is at most `NotBefore`. -/
theorem LoginUser_claims (env : Env) (t1 t2 t3 : Time) (db : DB) (user : User)
    (claims : RegisteredClaims) (db1 : DB)
    (h : LoginUser env t1 t2 t3 db user = some ((claims, none), db1)) :
    claims.Issuer = "gotu" ∧ claims.Subject = user.Email ∧
      claims.ExpiresAt = some ((NewNumericDate t1).Add (24 * Hour)) ∧
      claims.IssuedAt = some (NewNumericDate t2) ∧
      claims.NotBefore = some (NewNumericDate t3) ∧
      (t1 / Second = t2 / Second → t2 / Second = t3 / Second →
        claims.NotBefore = claims.IssuedAt ∧
        claims.ExpiresAt = some ((NewNumericDate t2).Add (24 * Hour))) ∧
      (t1 ≤ t2 → t2 ≤ t3 →
        (NewNumericDate t1).Add (24 * Hour) ≤ (NewNumericDate t2).Add (24 * Hour) ∧
        NewNumericDate t2 ≤ NewNumericDate t3) := by
  have hc : claims =
      { Issuer := "gotu", Subject := user.Email, Audience := [],
        ExpiresAt := some (NewNumericDate (t1.Add (24 * Hour))),
        IssuedAt := some (NewNumericDate t2),
        NotBefore := some (NewNumericDate t3), ID := "" } := by
    unfold LoginUser at h
    split at h
    · simp [loginFailed] at h
    · split at h
      · simp at h
      · simp [loginFailed] at h
      · simp only [Option.some.injEq, Prod.mk.injEq, and_true] at h
        exact h.1.symm
  subst hc
  refine ⟨rfl, rfl, by rw [NewNumericDate_Add_day], rfl, rfl, ?_, ?_⟩
  · intro h12 h23
    refine ⟨by rw [NewNumericDate_same_second t2 t3 h23], ?_⟩
    rw [NewNumericDate_Add_day, NewNumericDate_same_second t1 t2 h12]
  · intro h12 h23
    exact ⟨Nat.add_le_add_right (NewNumericDate_mono t1 t2 h12) _, NewNumericDate_mono t2 t3 h23⟩

/-- The statement of C8 as amended at the login of the registered user
`budi@domain.example` with three readings of the clock in second 5. -/
theorem LoginUser_claims_witness :
    ∃ claims db1,
      LoginUser sampleEnv 5000000001 5000000002 5999999999 registeredDB
          { Email := "budi@domain.example", Password := "password1" }
        = some ((claims, none), db1) ∧
      claims.Issuer = "gotu" ∧ claims.Subject = "budi@domain.example" ∧
      claims.NotBefore = claims.IssuedAt ∧
      claims.ExpiresAt = some ((NewNumericDate 5000000002).Add (24 * Hour)) :=
  have hrun := LoginUser_registered 5000000001 5000000002 5999999999
  have h := LoginUser_claims sampleEnv 5000000001 5000000002 5999999999 registeredDB
    { Email := "budi@domain.example", Password := "password1" } _ _ hrun
  have hs := h.2.2.2.2.2.1 (by decide) (by decide)
  ⟨_, _, hrun, h.1, h.2.1, hs.1, hs.2⟩

theorem RegisterUser_storage_error (env : Env) (salt : List Byte) (db : DB) (user : User)
    (he : env.ParseAddress user.Email = none) (hp : user.Password ≠ "") (err : GoError)
    (h : (RegisterUser env salt db user).1 = some err) :
    Is err ErrConflict = true ∧ Is err ErrInternal = false := by
  rw [RegisterUser_insert env salt db user he hp] at h
  rcases insertLogin_cases env db
      { Email := user.Email, Hash := hashPassword env.IDKey salt user.Password }
    with ⟨msg, hins⟩ | ⟨_, hins⟩
  · simp only [hins, Option.some.injEq] at h
    subst h
    simp [Is]
  · simp only [hins] at h
    simp at h

theorem execItems_error_foreign (env : Env) (user : String) (orderID : Int) :
    ∀ (items : List OrderItemRequest) (db : DB) (rows : List OrderItem) (err : GoError),
      (execItems env user orderID items db rows).1 = some err → ∃ msg, err = .foreign msg
  | [], _, _, _, h => by simp [execItems] at h
  | item :: rest, db, rows, err, h => by
    cases h0 : env.faultAt db with
    | some e =>
      simp only [execItems, h0, Option.some.injEq] at h
      subst h
      exact faultAt_foreign env db e h0
    | none =>
      simp only [execItems, h0] at h
      exact execItems_error_foreign env user orderID rest _ _ err h

theorem insertOrders_error_foreign (env : Env) (now : Time) (db : DB)
    (orderRequest : OrderRequest) (err : GoError)
    (h : (insertOrders env now db orderRequest).1.2 = some err) : ∃ msg, err = .foreign msg := by
  unfold insertOrders at h
  dsimp only at h
  split at h
  · rename_i e h0
    simp only [Option.some.injEq] at h
    subst h
    exact faultAt_foreign _ _ e h0
  · split at h
    · rename_i e h1
      simp only [Option.some.injEq] at h
      subst h
      exact faultAt_foreign _ _ e h1
    · split at h
      · rename_i e h2
        simp only [Option.some.injEq] at h
        subst h
        exact faultAt_foreign _ _ e h2
      · split at h
        · rename_i e db4 rows heq
          simp only [Option.some.injEq] at h
          subst h
          exact execItems_error_foreign env _ _ _ _ _ e (by rw [heq])
        · split at h
          · rename_i e h4
            simp only [Option.some.injEq] at h
            subst h
            exact faultAt_foreign _ _ e h4
          · simp at h

theorem CreateOrder_storage_error (env : Env) (now : Time) (db : DB)
    (orderRequest : OrderRequest) (hne : orderRequest.Items ≠ []) (err : GoError)
    (h : (CreateOrder env now db orderRequest).1.2 = some err) :
    Is err ErrConflict = true ∧ Is err ErrInternal = false := by
  have hlen : orderRequest.Items.length ≠ 0 := by
    simpa [List.length_eq_zero] using hne
  simp only [CreateOrder, hlen, if_false] at h
  split at h
  · rename_i o e db1 heq
    obtain ⟨msg, rfl⟩ := insertOrders_error_foreign env now db orderRequest e (by rw [heq])
    simp only [Option.some.injEq] at h
    subst h
    simp [Is]
  · simp at h

/-- C10, failing input: with a driver that has lost its connection, so that the
insert of the credential fails for a reason that is no uniqueness violation,
`RegisterUser` for a well-formed new user on the empty store returns an error
for which `errors.Is(err, ErrConflict)` is true and `errors.Is(err, ErrInternal)`
is false, and `postUsers` answers 409; with a driver that rejects the insert
of an item, `CreateOrder` returns an error of the same kinds. The claim says
Internal and not Conflict in both cases. -/
theorem storage_failure_reported_as_conflict :
    (∃ err, (RegisterUser downEnv saltA emptyDB
          { Email := "email@domain.example", Password := "password" }).1 = some err ∧
        Is err ErrConflict = true ∧ Is err ErrInternal = false) ∧
      (postUsers downEnv saltA emptyDB
        (some { Email := "email@domain.example", Password := "password" })).1 = 409 ∧
      (∃ err, (CreateOrder itemFaultEnv 1000 emptyDB sampleRequest).1.2 = some err ∧
        Is err ErrConflict = true ∧ Is err ErrInternal = false) ∧
      (CreateOrder itemFaultEnv 1000 emptyDB sampleRequest).2.orders = [] := by
  refine ⟨⟨.wrapErrors "failed to insert login: driver: bad connection: conflict"
      (.foreign "driver: bad connection") (.sentinel ErrConflict), by decide, by decide,
      by decide⟩, by decide,
    ⟨.wrapErrors
      "failed to insert order: pq: insert or update violates foreign key constraint: conflict"
      (.foreign "pq: insert or update violates foreign key constraint")
      (.sentinel ErrConflict), by decide, by decide, by decide⟩, by decide⟩

theorem appendItem_concat (orders : List OrderDetail) (d : OrderDetail) (item : OrderItem) :
    appendItem (orders ++ [d]) item
      = some (orders ++ [{ d with Items := d.Items ++ [item] }]) := by
  simp [appendItem, List.getLast?_concat]

theorem getOrdersByUser_zero_first (r : Row) (rest : List (Except GoError Row))
    (h : r.orderID = 0) : getOrdersByUser (.ok (.ok r :: rest)) = none := by
  have h2 : ¬ ({ ID := 0, User := "", Date := 0, Status := "", Items := [] } : OrderDetail).ID
      ≠ r.order.ID := fun hne => hne h.symm
  unfold getOrdersByUser
  simp only
  rw [scanRows, if_neg h2]
  rfl

theorem scanRows_open (r : Row) (rest : List (Except GoError Row)) (lastOrder : OrderDetail)
    (orders : List OrderDetail) (h : lastOrder.ID ≠ r.orderID) :
    scanRows (.ok r :: rest) lastOrder orders
      = scanRows rest r.order (orders ++ [{ r.order with Items := [r.item] }]) := by
  have h2 : lastOrder.ID ≠ r.order.ID := h
  have happ : appendItem (orders ++ [r.order]) r.item
      = some (orders ++ [{ r.order with Items := [r.item] }]) := by
    rw [appendItem_concat]
    rfl
  rw [scanRows, if_pos h2, happ]

theorem scanRows_same (r : Row) (rest : List (Except GoError Row)) (lastOrder : OrderDetail)
    (done : List OrderDetail) (cur : OrderDetail) (h : lastOrder.ID = r.orderID) :
    scanRows (.ok r :: rest) lastOrder (done ++ [cur])
      = scanRows rest lastOrder (done ++ [{ cur with Items := cur.Items ++ [r.item] }]) := by
  have h2 : ¬ lastOrder.ID ≠ r.order.ID := fun hne => hne h
  rw [scanRows, if_neg h2, appendItem_concat]

theorem groupRuns_cons (r : Row) (rest : List Row) :
    groupRuns (r :: rest)
      = { r.order with
          Items := r.item :: (rest.takeWhile (fun x => x.orderID = r.orderID)).map Row.item } ::
        groupRuns (rest.dropWhile (fun x => x.orderID = r.orderID)) := by
  rw [groupRuns]

theorem scanRows_run :
    ∀ (rows : List Row) (done : List OrderDetail) (cur lastOrder : OrderDetail),
      lastOrder.ID = cur.ID →
      scanRows (rows.map .ok) lastOrder (done ++ [cur])
        = some (done ++
            [{ cur with Items := cur.Items ++
                (rows.takeWhile (fun x => x.orderID = cur.ID)).map Row.item }] ++
            groupRuns (rows.dropWhile (fun x => x.orderID = cur.ID)), none)
  | [], done, cur, _, _ => by simp [scanRows, groupRuns]
  | r :: rest, done, cur, lastOrder, hid => by
    by_cases hr : r.orderID = cur.ID
    · have ih := scanRows_run rest done { cur with Items := cur.Items ++ [r.item] } lastOrder hid
      rw [List.map_cons, scanRows_same r _ lastOrder done cur (by rw [hid, hr]), ih]
      simp [List.takeWhile_cons, List.dropWhile_cons, hr]
    · have ih := scanRows_run rest (done ++ [cur]) { r.order with Items := [r.item] } r.order rfl
      rw [List.map_cons, scanRows_open r _ lastOrder _ (by rw [hid]; exact fun h => hr h.symm), ih]
      have hid2 : ({ r.order with Items := [r.item] } : OrderDetail).ID = r.orderID := rfl
      simp only [hid2]
      simp [List.takeWhile_cons, List.dropWhile_cons, hr, groupRuns_cons, Row.order]

theorem getOrdersByUser_eq_groupRuns (rows : List Row)
    (h : ∀ r, rows.head? = some r → r.orderID ≠ 0) :
    getOrdersByUser (.ok (rows.map .ok)) = some (groupRuns rows, none) := by
  cases rows with
  | nil => simp [getOrdersByUser, scanRows, groupRuns]
  | cons r rest =>
    have hr : r.orderID ≠ 0 := h r rfl
    have ih := scanRows_run rest [] { r.order with Items := [r.item] } r.order rfl
    have hid2 : ({ r.order with Items := [r.item] } : OrderDetail).ID = r.orderID := rfl
    simp only [hid2] at ih
    unfold getOrdersByUser
    simp only [List.map_cons]
    rw [scanRows_open r _ _ _ (fun e => hr e.symm), ih, groupRuns_cons]
    simp [Row.order]

theorem appendItem_items (orders orders1 : List OrderDetail) (item : OrderItem)
    (P : OrderItem → Prop) (hitem : P item)
    (h : ∀ d, d ∈ orders → ∀ i, i ∈ d.Items → P i)
    (he : appendItem orders item = some orders1) :
    ∀ d, d ∈ orders1 → ∀ i, i ∈ d.Items → P i := by
  unfold appendItem at he
  cases hl : orders.getLast? with
  | none => simp [hl] at he
  | some last =>
    simp only [hl, Option.some.injEq] at he
    subst he
    intro d hd i hi
    rw [List.mem_append] at hd
    rcases hd with hd | hd
    · exact h d (List.mem_of_mem_dropLast hd) i hi
    · rw [List.mem_singleton] at hd
      subst hd
      simp only [List.mem_append, List.mem_singleton] at hi
      rcases hi with hi | hi
      · exact h last (List.mem_of_getLast?_eq_some hl) i hi
      · exact hi ▸ hitem

theorem scanRows_items (P : OrderItem → Prop) (hP : ∀ r : Row, P r.item) :
    ∀ (rows : List (Except GoError Row)) (lastOrder : OrderDetail)
      (orders result : List OrderDetail) (oerr : Option GoError),
      (∀ d, d ∈ orders → ∀ i, i ∈ d.Items → P i) →
      scanRows rows lastOrder orders = some (result, oerr) →
      ∀ d, d ∈ result → ∀ i, i ∈ d.Items → P i
  | [], _, orders, result, oerr, h, he => by
    simp only [scanRows, Option.some.injEq, Prod.mk.injEq] at he
    rw [← he.1]
    exact h
  | .error err :: _, _, _, result, oerr, _, he => by
    simp only [scanRows, Option.some.injEq, Prod.mk.injEq] at he
    rw [← he.1]
    intro d hd
    simp at hd
  | .ok r :: rest, lastOrder, orders, result, oerr, h, he => by
    rw [scanRows] at he
    split at he
    · cases ha : appendItem (orders ++ [r.order]) r.item with
      | none => simp [ha] at he
      | some orders1 =>
        simp only [ha] at he
        have h1 : ∀ d, d ∈ orders ++ [r.order] → ∀ i, i ∈ d.Items → P i := by
          intro d hd i hi
          rw [List.mem_append, List.mem_singleton] at hd
          rcases hd with hd | hd
          · exact h d hd i hi
          · subst hd
            simp [Row.order] at hi
        exact scanRows_items P hP rest _ orders1 result oerr
          (appendItem_items _ _ _ P (hP r) h1 ha) he
    · cases ha : appendItem orders r.item with
      | none => simp [ha] at he
      | some orders1 =>
        simp only [ha] at he
        exact scanRows_items P hP rest _ orders1 result oerr
          (appendItem_items _ _ _ P (hP r) h ha) he

theorem GetOrdersByUser_items_unfilled (query : Except GoError (List (Except GoError Row)))
    (result : List OrderDetail) (oerr : Option GoError)
    (h : GetOrdersByUser query = some (result, oerr)) :
    ∀ d, d ∈ result → ∀ i, i ∈ d.Items → i.OrderID = 0 ∧ i.User = "" := by
  unfold GetOrdersByUser getOrdersByUser at h
  cases query with
  | error err =>
    simp only [Option.some.injEq, Prod.mk.injEq] at h
    rw [← h.1]
    intro d hd
    simp at hd
  | ok rows =>
    exact scanRows_items (fun i => i.OrderID = 0 ∧ i.User = "") (fun _ => ⟨rfl, rfl⟩)
      rows _ [] result oerr (by intro d hd; simp at hd) h

/-- C11, failing input: for the stream of the single joined row `sampleRow`
(order 1 of `budi@domain.example`, one item), `GetOrdersByUser` returns one
`OrderDetail` with `ID` 1 and `User` `budi@domain.example` whose only item has
`OrderID` 0 and the empty `User`, because `rows.Scan` fills neither field of the
item; the claim says the item carries the id and the user of its order. -/
theorem GetOrdersByUser_item_owner_unfilled :
    GetOrdersByUser (.ok [.ok sampleRow])
        = some ([{ ID := 1, User := "budi@domain.example", Date := 1000, Status := "pending",
                   Items := [{ ID := 1, User := "", OrderID := 0, BookID := 1,
                               Quantity := 1 }] }], none) ∧
      (0 : Int) ≠ 1 ∧ "" ≠ "budi@domain.example" := by
  decide

theorem Contiguous.between (rows : List Row) (h : Contiguous rows) : Between rows := by
  intro a m b hsub hab
  obtain ⟨f, hf⟩ := List.sublist_iff_exists_orderEmbedding_get?_eq.mp hsub
  have h0 : rows.get? (f 0) = some a := by simpa using (hf 0).symm
  have h1 : rows.get? (f 1) = some m := by simpa using (hf 1).symm
  have h2 : rows.get? (f 2) = some b := by simpa using (hf 2).symm
  have hk : f 2 < rows.length := by
    by_contra hge
    rw [List.get?_eq_none.mpr (Nat.le_of_not_lt hge)] at h2
    exact Option.noConfusion h2
  have h01 : f 0 < f 1 := f.lt_iff_lt.mpr (by decide)
  have h12 : f 1 < f 2 := f.lt_iff_lt.mpr (by decide)
  have := h (f 2) hk (f 1) h12 (f 0) h01 (by rw [h0, h2]; simp [hab])
  rw [h0, h1] at this
  simpa using this

theorem Between.of_sublist (l1 l2 : List Row) (hsub : List.Sublist l1 l2) (h : Between l2) :
    Between l1 :=
  fun a m b h3 hab => h a m b (h3.trans hsub) hab

theorem dropWhile_head_false (p : Row → Bool) :
    ∀ (l : List Row) (b : Row) (t : List Row), l.dropWhile p = b :: t → p b = false
  | [], _, _, h => by simp at h
  | x :: xs, b, t, h => by
    rw [List.dropWhile_cons] at h
    by_cases hx : p x = true
    · rw [if_pos hx] at h
      exact dropWhile_head_false p xs b t h
    · rw [if_neg hx] at h
      cases h
      simpa using hx

theorem Between.dropWhile_ne (r : Row) (rest : List Row) (h : Between (r :: rest)) :
    ∀ x, x ∈ rest.dropWhile (fun y => y.orderID = r.orderID) → x.orderID ≠ r.orderID := by
  intro x hx
  cases hdw : rest.dropWhile (fun y => y.orderID = r.orderID) with
  | nil => simp [hdw] at hx
  | cons b t =>
    have hb : b.orderID ≠ r.orderID := by
      have := dropWhile_head_false _ rest b t hdw
      simpa using this
    rw [hdw] at hx
    rcases List.mem_cons.mp hx with hxb | hxt
    · rw [hxb]
      exact hb
    · intro hxr
      have hs2 : List.Sublist [b, x] (b :: t) := List.Sublist.cons₂ b (List.singleton_sublist.mpr hxt)
      have hs3 : List.Sublist [r, b, x] (r :: rest) := by
        rw [← hdw] at hs2
        exact List.Sublist.cons₂ r (hs2.trans (List.dropWhile_sublist _))
      exact hb (h r b x hs3 hxr.symm)

theorem firstSeen_filter (p : Int → Bool) :
    ∀ l : List Int, firstSeen (l.filter p) = (firstSeen l).filter p
  | [] => rfl
  | x :: xs => by
    have ih := firstSeen_filter p xs
    by_cases hx : p x = true
    · rw [List.filter_cons_of_pos hx]
      simp only [firstSeen, ih, List.filter_cons_of_pos hx, List.filter_filter]
      congr 1
      apply List.filter_congr
      intro a _
      exact Bool.and_comm _ _
    · rw [List.filter_cons_of_neg hx, ih]
      simp only [firstSeen, List.filter_cons_of_neg hx, List.filter_filter]
      apply List.filter_congr
      intro a _
      by_cases ha : a = x
      · subst ha
        simp [hx]
      · simp [ha]

theorem firstSeen_subset : ∀ (l : List Int) (x : Int), x ∈ firstSeen l → x ∈ l
  | [], _, h => by simp [firstSeen] at h
  | y :: ys, x, h => by
    simp only [firstSeen, List.mem_cons, List.mem_filter] at h
    rcases h with h | ⟨h, _⟩
    · exact h ▸ List.mem_cons_self _ _
    · exact List.mem_cons_of_mem _ (firstSeen_subset ys x h)

theorem firstSeen_nodup : ∀ l : List Int, (firstSeen l).Nodup
  | [] => by simp [firstSeen]
  | x :: xs => by
    simp only [firstSeen, List.nodup_cons, List.mem_filter]
    exact ⟨fun h => by simpa using h.2, (firstSeen_nodup xs).filter _⟩

theorem filter_run_eq (r : Row) (rest : List Row) (h : Between (r :: rest)) :
    rest.filter (fun y => y.orderID = r.orderID)
      = rest.takeWhile (fun y => y.orderID = r.orderID) := by
  have hsplit := List.takeWhile_append_dropWhile (fun y : Row => y.orderID = r.orderID) rest
  conv_lhs => rw [← hsplit]
  rw [List.filter_append]
  have h1 : (rest.takeWhile (fun y => y.orderID = r.orderID)).filter
      (fun y => y.orderID = r.orderID) = rest.takeWhile (fun y => y.orderID = r.orderID) := by
    rw [List.filter_eq_self]
    intro a ha
    have := List.mem_takeWhile_imp ha
    simpa using this
  have h2 : (rest.dropWhile (fun y => y.orderID = r.orderID)).filter
      (fun y => y.orderID = r.orderID) = [] := by
    rw [List.filter_eq_nil_iff]
    intro a ha
    simpa using Between.dropWhile_ne r rest h a ha
  rw [h1, h2, List.append_nil]

theorem filter_other_eq (r : Row) (rest : List Row) (id : Int) (hid : id ≠ r.orderID) :
    (r :: rest).filter (fun y => y.orderID = id)
      = (rest.dropWhile (fun y => y.orderID = r.orderID)).filter (fun y => y.orderID = id) := by
  have hsplit := List.takeWhile_append_dropWhile (fun y : Row => y.orderID = r.orderID) rest
  have hr : ¬ r.orderID = id := fun e => hid e.symm
  have hcons : (r :: rest).filter (fun y => y.orderID = id)
      = rest.filter (fun y => y.orderID = id) := by
    simp [List.filter_cons, hr]
  rw [hcons]
  conv_lhs => rw [← hsplit]
  rw [List.filter_append]
  have h1 : (rest.takeWhile (fun y => y.orderID = r.orderID)).filter
      (fun y => y.orderID = id) = [] := by
    rw [List.filter_eq_nil_iff]
    intro a ha
    have : a.orderID = r.orderID := by simpa using List.mem_takeWhile_imp ha
    simpa [this] using fun e => hid e.symm
  rw [h1, List.nil_append]

theorem ids_filter_ne (r : Row) (rest : List Row) (h : Between (r :: rest)) :
    (rest.map Row.orderID).filter (fun y => y ≠ r.orderID)
      = (rest.dropWhile (fun y => y.orderID = r.orderID)).map Row.orderID := by
  have hsplit := List.takeWhile_append_dropWhile (fun y : Row => y.orderID = r.orderID) rest
  conv_lhs => rw [← hsplit]
  rw [List.map_append, List.filter_append]
  have h1 : ((rest.takeWhile (fun y => y.orderID = r.orderID)).map Row.orderID).filter
      (fun y => y ≠ r.orderID) = [] := by
    rw [List.filter_eq_nil_iff]
    intro a ha
    obtain ⟨x, hx, rfl⟩ := List.mem_map.mp ha
    have : x.orderID = r.orderID := by simpa using List.mem_takeWhile_imp hx
    simp [this]
  have h2 : ((rest.dropWhile (fun y => y.orderID = r.orderID)).map Row.orderID).filter
      (fun y => y ≠ r.orderID)
      = (rest.dropWhile (fun y => y.orderID = r.orderID)).map Row.orderID := by
    rw [List.filter_eq_self]
    intro a ha
    obtain ⟨x, hx, rfl⟩ := List.mem_map.mp ha
    simpa using Between.dropWhile_ne r rest h x hx
  rw [h1, h2, List.nil_append]

theorem groupRuns_ids : ∀ rows : List Row, Between rows →
    (groupRuns rows).map (fun d => d.ID) = firstSeen (rows.map Row.orderID)
  | [], _ => by simp [groupRuns, firstSeen]
  | r :: rest, h => by
    have ih := groupRuns_ids (rest.dropWhile (fun y => y.orderID = r.orderID))
      (Between.of_sublist _ _
        ((List.dropWhile_sublist _).trans (List.sublist_cons_self r rest)) h)
    rw [groupRuns_cons, List.map_cons, ih, List.map_cons, firstSeen, ← firstSeen_filter,
      ids_filter_ne r rest h]
    rfl
termination_by rows => rows.length
decreasing_by
  simp_wf
  exact Nat.lt_succ_of_le (List.dropWhile_sublist _).length_le

theorem groupRuns_items : ∀ rows : List Row, Between rows →
    ∀ d, d ∈ groupRuns rows →
      d.Items ≠ [] ∧ d.Items = (rows.filter (fun y => y.orderID = d.ID)).map Row.item
  | [], _, d, hd => by simp [groupRuns] at hd
  | r :: rest, h, d, hd => by
    have hb := Between.of_sublist _ _
      ((List.dropWhile_sublist (fun y : Row => y.orderID = r.orderID)).trans
        (List.sublist_cons_self r rest)) h
    rw [groupRuns_cons] at hd
    rcases List.mem_cons.mp hd with hd | hd
    · subst hd
      refine ⟨by simp, ?_⟩
      have hcons : (r :: rest).filter (fun y => y.orderID = r.orderID)
          = r :: rest.filter (fun y => y.orderID = r.orderID) := by
        simp [List.filter_cons]
      have hid : ({ r.order with
          Items := r.item ::
            (rest.takeWhile (fun x => x.orderID = r.orderID)).map Row.item } : OrderDetail).ID
          = r.orderID := rfl
      rw [hid, hcons, filter_run_eq r rest h]
      rfl
    · have ih := groupRuns_items _ hb d hd
      have hmem : d.ID ∈ (rest.dropWhile (fun y => y.orderID = r.orderID)).map Row.orderID := by
        apply firstSeen_subset
        rw [← groupRuns_ids _ hb]
        exact List.mem_map.mpr ⟨d, hd, rfl⟩
      obtain ⟨x, hx, hxid⟩ := List.mem_map.mp hmem
      have hne : d.ID ≠ r.orderID := hxid ▸ Between.dropWhile_ne r rest h x hx
      rw [filter_other_eq r rest d.ID hne]
      exact ih
termination_by rows => rows.length
decreasing_by
  simp_wf
  exact Nat.lt_succ_of_le (List.dropWhile_sublist _).length_le

theorem groupRuns_flatMap : ∀ rows : List Row,
    (groupRuns rows).flatMap (fun d => d.Items) = rows.map Row.item
  | [] => by simp [groupRuns]
  | r :: rest => by
    have ih := groupRuns_flatMap (rest.dropWhile (fun y => y.orderID = r.orderID))
    have hsplit := List.takeWhile_append_dropWhile (fun y : Row => y.orderID = r.orderID) rest
    rw [groupRuns_cons, List.flatMap_cons, ih]
    simp only [List.cons_append, List.map_cons, ← List.map_append, hsplit]
termination_by rows => rows.length
decreasing_by
  simp_wf
  exact Nat.lt_succ_of_le (List.dropWhile_sublist _).length_le

theorem mem_firstSeen : ∀ (l : List Int) (x : Int), x ∈ firstSeen l ↔ x ∈ l
  | [], x => by simp [firstSeen]
  | y :: ys, x => by
    have ih := mem_firstSeen ys x
    simp only [firstSeen, List.mem_cons, List.mem_filter, ih]
    constructor
    · rintro (h | ⟨h, _⟩)
      · exact Or.inl h
      · exact Or.inr h
    · rintro (h | h)
      · exact Or.inl h
      · by_cases hxy : x = y
        · exact Or.inl hxy
        · exact Or.inr ⟨h, by simpa using hxy⟩

/-- C12: for every finite stream of joined rows in which every order id is
non-zero and all rows of one order id are contiguous, the fold in
`getOrdersByUser` does not panic on an index out of range and returns, without
error, a sequence `ds` that has exactly one `OrderDetail` per distinct order id
of the stream, in the order of first appearance (the ids of `ds` are the
distinct order ids of the rows in that order, none twice, and an id is among
them exactly when a row has it); each `OrderDetail` has at least one item, and
its `Items` are the items of the rows with its order id, all of them and in row
order; the `Items` of `ds` concatenated are the items of the stream in order. -/
theorem getOrdersByUser_contiguous (rows : List Row)
    (hnz : ∀ r, r ∈ rows → r.orderID ≠ 0) (hc : Contiguous rows) :
    ∃ ds, getOrdersByUser (.ok (rows.map .ok)) = some (ds, none) ∧
      ds.map (fun d => d.ID) = firstSeen (rows.map Row.orderID) ∧
      (ds.map (fun d => d.ID)).Nodup ∧
      (∀ id, id ∈ ds.map (fun d => d.ID) ↔ ∃ r, r ∈ rows ∧ r.orderID = id) ∧
      (∀ d, d ∈ ds →
        d.Items ≠ [] ∧
        d.Items = (rows.filter (fun y => y.orderID = d.ID)).map Row.item) ∧
      ds.flatMap (fun d => d.Items) = rows.map Row.item := by
  have hb := Contiguous.between rows hc
  have hrun := getOrdersByUser_eq_groupRuns rows
    (fun r hr => hnz r (List.mem_of_mem_head? hr))
  have hids := groupRuns_ids rows hb
  refine ⟨groupRuns rows, hrun, hids, ?_, ?_, groupRuns_items rows hb, groupRuns_flatMap rows⟩
  · rw [hids]
    exact firstSeen_nodup _
  · intro id
    rw [hids, mem_firstSeen, List.mem_map]

/-- The statement of C12 at the stream `sampleRows`: two rows of order 1
followed by one row of order 2. -/
theorem getOrdersByUser_contiguous_witness :
    ((∀ r, r ∈ sampleRows → r.orderID ≠ 0) ∧ Contiguous sampleRows) ∧
      ∃ ds, getOrdersByUser (.ok (sampleRows.map .ok)) = some (ds, none) ∧
        ds.map (fun d => d.ID) = firstSeen (sampleRows.map Row.orderID) ∧
        (ds.map (fun d => d.ID)).Nodup ∧
        (∀ id, id ∈ ds.map (fun d => d.ID) ↔ ∃ r, r ∈ sampleRows ∧ r.orderID = id) ∧
        (∀ d, d ∈ ds →
          d.Items ≠ [] ∧
          d.Items = (sampleRows.filter (fun y => y.orderID = d.ID)).map Row.item) ∧
        ds.flatMap (fun d => d.Items) = sampleRows.map Row.item :=
  have hnz : ∀ r, r ∈ sampleRows → r.orderID ≠ 0 := by decide
  have hc : Contiguous sampleRows := by decide
  ⟨⟨hnz, hc⟩, getOrdersByUser_contiguous sampleRows hnz hc⟩

end Bookstore
